import Mathlib

/-!
# Verification of the footprint-metric-adapters windowing core

A shallow embedding of the metric windowing and aggregation engine:
percentile math (`strategies/percentile.js`), the three retention
strategies (`RingBufferStrategy`, `TumblingWindowStrategy`,
`SlidingWindowStrategy`) and the event bridge (`MetricCollector`),
together with theorems checking the specified properties.

JS numbers carrying metric values are modelled as rationals (`ℚ`);
timestamps are modelled as integers (milliseconds).
-/

set_option maxHeartbeats 1000000

/-- The `MetricType` union from `core/types`. -/
inductive MetricType where
  | latency
  | errorCount
  | readCount
  | writeCount
  | commitCount
  | stageInvocation
  | custom
deriving DecidableEq, Repr

/-- A `MetricEntry` data point (`core/types`): stage name, metric kind,
numeric value, timestamp, optional metadata bag. -/
structure MetricEntry where
  stageName : String
  metric : MetricType
  value : ℚ
  timestamp : Int
  metadata : Option (List (String × String))
deriving DecidableEq, Repr

instance : Inhabited MetricEntry := ⟨⟨"", .custom, 0, 0, none⟩⟩

/-- `PercentileResult` (the spec's StatBundle). -/
structure PercentileResult where
  min : ℚ
  max : ℚ
  p50 : ℚ
  p95 : ℚ
  p99 : ℚ
  mean : ℚ
  count : Nat
deriving DecidableEq, Repr

/-- `percentile(sorted, p)` from `strategies/percentile.js`: nearest-rank
with linear interpolation over a pre-sorted ascending array. -/
def percentile (sorted : List ℚ) (p : ℚ) : ℚ :=
  if sorted.length = 0 then 0
  else if sorted.length = 1 then sorted.getD 0 0
  else
    let index : ℚ := p / 100 * ((sorted.length : ℚ) - 1)
    let lower : Int := ⌊index⌋
    let upper : Int := ⌈index⌉
    if lower = upper then sorted.getD lower.toNat 0
    else
      let weight : ℚ := index - (lower : ℚ)
      sorted.getD lower.toNat 0 * (1 - weight) + sorted.getD upper.toNat 0 * weight

/-- The all-zero `PercentileResult` returned for an empty value set. -/
def zeroResult : PercentileResult := ⟨0, 0, 0, 0, 0, 0, 0⟩

/-- `computePercentiles(entries, metric)` from `strategies/percentile.js`:
filter to the metric, extract values, ascending sort, derive the bundle. -/
def computePercentiles (entries : List MetricEntry) (metric : MetricType) : PercentileResult :=
  let values := List.insertionSort (· ≤ ·)
    ((entries.filter (fun e => e.metric = metric)).map (fun e => e.value))
  if values.length = 0 then zeroResult
  else
    let sum := values.foldl (· + ·) 0
    ⟨values.getD 0 0, values.getD (values.length - 1) 0,
     percentile values 50, percentile values 95, percentile values 99,
     sum / (values.length : ℚ), values.length⟩

/-- Stage names in first-appearance order among entries of the given metric
(the iteration order of the JS `Map` built by `computeStagePercentiles`). -/
def stageOrder (entries : List MetricEntry) (metric : MetricType) : List String :=
  entries.foldl
    (fun acc e =>
      if e.metric = metric then (if e.stageName ∈ acc then acc else acc ++ [e.stageName])
      else acc)
    []

/-- `computeStagePercentiles(entries, metric)`: per-stage bundles, keyed in
first-appearance order as the JS `Map` iterates. -/
def computeStagePercentiles (entries : List MetricEntry) (metric : MetricType) :
    List (String × PercentileResult) :=
  (stageOrder entries metric).map fun s =>
    (s, computePercentiles (entries.filter (fun e => e.stageName = s)) metric)

/-- Stage names in first-appearance order among `errorCount` entries. -/
def errorStageOrder (entries : List MetricEntry) : List String :=
  entries.foldl
    (fun acc e =>
      if e.metric = .errorCount then (if e.stageName ∈ acc then acc else acc ++ [e.stageName])
      else acc)
    []

/-- `computeStageErrors(entries)`: per-stage sums of `errorCount` values. -/
def computeStageErrors (entries : List MetricEntry) : List (String × ℚ) :=
  (errorStageOrder entries).map fun s =>
    (s, ((entries.filter (fun e => e.metric = .errorCount ∧ e.stageName = s)).map
          (fun e => e.value)).sum)

/-! ## Percentile math: helper lemmas -/

/-- Read a sorted array at an integer rank (JS array indexing with a
non-negative index). -/
def sGet (s : List ℚ) (i : Int) : ℚ := s.getD i.toNat 0

/-- The interpolation value at a fractional rank `x`:
`s[⌊x⌋] * (1 - w) + s[⌈x⌉] * w` with `w = x - ⌊x⌋`. -/
def interpAt (s : List ℚ) (x : ℚ) : ℚ :=
  sGet s ⌊x⌋ * (1 - (x - (⌊x⌋ : ℚ))) + sGet s ⌈x⌉ * (x - (⌊x⌋ : ℚ))

theorem sorted_sGet_mono (s : List ℚ) (hs : s.Sorted (· ≤ ·)) (i j : Int)
    (h0 : 0 ≤ i) (hij : i ≤ j) (hj : j < (s.length : Int)) : sGet s i ≤ sGet s j := by
  have hjN : j.toNat < s.length := by omega
  have hiN : i.toNat < s.length := by omega
  have hle : i.toNat ≤ j.toNat := by omega
  unfold sGet
  rw [List.getD_eq_get s 0 hiN, List.getD_eq_get s 0 hjN]
  exact hs.rel_get_of_le hle

theorem percentile_eq_interpAt (s : List ℚ) (p : ℚ) (h2 : 2 ≤ s.length) :
    percentile s p = interpAt s (p / 100 * ((s.length : ℚ) - 1)) := by
  unfold percentile interpAt sGet
  have h0 : ¬ s.length = 0 := by omega
  have h1 : ¬ s.length = 1 := by omega
  simp only [h0, h1, if_false]
  set x := p / 100 * ((s.length : ℚ) - 1) with hx
  by_cases hfc : ⌊x⌋ = ⌈x⌉
  · simp only [hfc, if_true, if_pos rfl]
    ring
  · simp only [if_neg hfc]

theorem interpAt_between (s : List ℚ) (hs : s.Sorted (· ≤ ·)) (x : ℚ)
    (hx0 : 0 ≤ x) (hx1 : x ≤ (s.length : ℚ) - 1) :
    sGet s ⌊x⌋ ≤ interpAt s x ∧ interpAt s x ≤ sGet s ⌈x⌉ := by
  have hfl0 : 0 ≤ ⌊x⌋ := Int.floor_nonneg.mpr hx0
  have hcl : ⌈x⌉ < (s.length : Int) := by
    have : ⌈x⌉ ≤ (s.length : Int) - 1 := by rw [Int.ceil_le]; push_cast; exact hx1
    omega
  have hfc : ⌊x⌋ ≤ ⌈x⌉ := Int.floor_le_ceil x
  have hmono : sGet s ⌊x⌋ ≤ sGet s ⌈x⌉ := sorted_sGet_mono s hs _ _ hfl0 hfc hcl
  have hw0 : 0 ≤ x - (⌊x⌋ : ℚ) := by have := Int.floor_le x; linarith
  have hw1 : x - (⌊x⌋ : ℚ) < 1 := by
    have := Int.lt_floor_add_one x; push_cast at this; linarith
  unfold interpAt
  constructor
  · nlinarith [mul_nonneg hw0 (sub_nonneg.mpr hmono)]
  · nlinarith [mul_nonneg (by linarith : (0:ℚ) ≤ 1 - (x - (⌊x⌋ : ℚ))) (sub_nonneg.mpr hmono)]

theorem interpAt_intCast (s : List ℚ) (l : Int) : interpAt s ((l : ℚ)) = sGet s l := by
  unfold interpAt
  rw [Int.floor_intCast, Int.ceil_intCast]
  ring

theorem interpAt_linear (s : List ℚ) (x : ℚ) (l : Int) (hfl : ⌊x⌋ = l) :
    interpAt s x = sGet s l + (x - (l : ℚ)) * (sGet s (l + 1) - sGet s l) := by
  by_cases hxl : x = (l : ℚ)
  · subst hxl
    rw [interpAt_intCast]
    ring
  · have hfr : Int.fract x ≠ 0 := by
      rw [Int.fract]
      intro hcon
      apply hxl
      have : x = (⌊x⌋ : ℚ) := by linarith
      rw [this, hfl]
    have hceil : ⌈x⌉ = l + 1 := by
      have := Int.ceil_eq_add_one_sub_fract hfr
      rw [Int.fract, hfl] at this
      have : (⌈x⌉ : ℚ) = ((l + 1 : Int) : ℚ) := by push_cast; push_cast at this; linarith
      exact_mod_cast this
    unfold interpAt
    rw [hfl, hceil]
    ring

theorem interpAt_mono (s : List ℚ) (hs : s.Sorted (· ≤ ·)) (a b : ℚ)
    (ha : 0 ≤ a) (hab : a ≤ b) (hb : b ≤ (s.length : ℚ) - 1) :
    interpAt s a ≤ interpAt s b := by
  have hb0 : 0 ≤ b := le_trans ha hab
  have ha' : a ≤ (s.length : ℚ) - 1 := le_trans hab hb
  have hfab : ⌊a⌋ ≤ ⌊b⌋ := Int.floor_le_floor hab
  rcases lt_or_eq_of_le hfab with hlt | heq
  · -- the ranks straddle at least one integer: go through s[⌈a⌉] ≤ s[⌊b⌋]
    have h1 := interpAt_between s hs a ha ha'
    have h2 := interpAt_between s hs b hb0 hb
    have hca : ⌈a⌉ ≤ ⌊a⌋ + 1 := Int.ceil_le_floor_add_one a
    have hfb : ⌊b⌋ < (s.length : Int) := by
      have h3 : (⌊b⌋ : ℚ) ≤ b := Int.floor_le b
      have h4 : (⌊b⌋ : ℚ) ≤ (s.length : ℚ) - 1 := le_trans h3 hb
      have h5 : ⌊b⌋ ≤ (s.length : Int) - 1 := by exact_mod_cast h4
      omega
    have hc0 : 0 ≤ ⌈a⌉ := le_trans (Int.floor_nonneg.mpr ha) (Int.floor_le_ceil a)
    have hmid : sGet s ⌈a⌉ ≤ sGet s ⌊b⌋ :=
      sorted_sGet_mono s hs _ _ hc0 (by omega) hfb
    linarith [h1.2, h2.1]
  · -- same integer rank segment: linear with a non-negative slope
    set l := ⌊a⌋ with hl
    by_cases hend : l + 1 < (s.length : Int)
    · have hslope : sGet s l ≤ sGet s (l + 1) :=
        sorted_sGet_mono s hs _ _ (Int.floor_nonneg.mpr ha) (by omega) hend
      rw [interpAt_linear s a l rfl, interpAt_linear s b l heq.symm]
      nlinarith [mul_le_mul_of_nonneg_right hab (sub_nonneg.mpr hslope)]
    · -- the shared floor is the last rank, so both points equal that rank
      have hfb : (⌊b⌋ : ℚ) ≤ b := Int.floor_le b
      have hbl : (l : ℚ) ≤ b := by rw [heq]; exact hfb
      have hla : (l : ℚ) ≤ a := Int.floor_le a
      have hlen : l = (s.length : Int) - 1 := by
        have h5 : (⌊b⌋ : ℚ) ≤ (s.length : ℚ) - 1 := le_trans hfb hb
        have h6 : ⌊b⌋ ≤ (s.length : Int) - 1 := by exact_mod_cast h5
        omega
      have hbeq : b = (l : ℚ) := by
        have : b ≤ (s.length : ℚ) - 1 := hb
        have h8 : (l : ℚ) = (s.length : ℚ) - 1 := by rw [hlen]; push_cast; ring
        linarith
      have haeq : a = (l : ℚ) := by linarith
      rw [haeq, hbeq]

theorem percentile_singleton (s : List ℚ) (p : ℚ) (h1 : s.length = 1) :
    percentile s p = s.getD 0 0 := by
  unfold percentile
  rw [h1]
  simp

theorem percentile_bounds (s : List ℚ) (hs : s.Sorted (· ≤ ·)) (p : ℚ)
    (h1 : 1 ≤ s.length) (hp0 : 0 ≤ p) (hp1 : p ≤ 100) :
    s.getD 0 0 ≤ percentile s p ∧ percentile s p ≤ s.getD (s.length - 1) 0 := by
  rcases Nat.lt_or_ge s.length 2 with hlt | hge
  · have hl1 : s.length = 1 := by omega
    rw [percentile_singleton s p hl1, hl1]
    exact ⟨le_refl _, le_refl _⟩
  · rw [percentile_eq_interpAt s p hge]
    set x := p / 100 * ((s.length : ℚ) - 1) with hxdef
    have hn1 : (1 : ℚ) ≤ (s.length : ℚ) - 1 := by
      have : (2 : ℚ) ≤ (s.length : ℚ) := by exact_mod_cast hge
      linarith
    have hx0 : 0 ≤ x := by
      apply mul_nonneg (div_nonneg hp0 (by norm_num))
      linarith
    have hx1 : x ≤ (s.length : ℚ) - 1 := by
      have hple : p / 100 ≤ 1 := by linarith [div_le_one_of_le hp1 (by norm_num : (0:ℚ) ≤ 100)]
      calc x = p / 100 * ((s.length : ℚ) - 1) := rfl
        _ ≤ 1 * ((s.length : ℚ) - 1) := by
            apply mul_le_mul_of_nonneg_right hple; linarith
        _ = (s.length : ℚ) - 1 := by ring
    obtain ⟨hlow, hhigh⟩ := interpAt_between s hs x hx0 hx1
    have hfl0 : 0 ≤ ⌊x⌋ := Int.floor_nonneg.mpr hx0
    have hfln : ⌊x⌋ < (s.length : Int) := by
      have h3 : (⌊x⌋ : ℚ) ≤ x := Int.floor_le x
      have h4 : (⌊x⌋ : ℚ) ≤ (s.length : ℚ) - 1 := le_trans h3 hx1
      have h5 : ⌊x⌋ ≤ (s.length : Int) - 1 := by exact_mod_cast h4
      omega
    have hcl0 : 0 ≤ ⌈x⌉ := le_trans hfl0 (Int.floor_le_ceil x)
    have hcln : ⌈x⌉ < (s.length : Int) := by
      have : ⌈x⌉ ≤ (s.length : Int) - 1 := by rw [Int.ceil_le]; push_cast; exact hx1
      omega
    constructor
    · have h0 : sGet s 0 ≤ sGet s ⌊x⌋ :=
        sorted_sGet_mono s hs 0 ⌊x⌋ (le_refl 0) hfl0 hfln
      have : sGet s 0 = s.getD 0 0 := rfl
      linarith
    · have hlast : sGet s ⌈x⌉ ≤ sGet s ((s.length : Int) - 1) :=
        sorted_sGet_mono s hs ⌈x⌉ ((s.length : Int) - 1) hcl0 (by omega) (by omega)
      have hlasteq : sGet s ((s.length : Int) - 1) = s.getD (s.length - 1) 0 := by
        unfold sGet
        congr 1
        omega
      linarith [hlasteq ▸ hlast]

theorem percentile_mono (s : List ℚ) (hs : s.Sorted (· ≤ ·)) (p q : ℚ)
    (h1 : 1 ≤ s.length) (hp0 : 0 ≤ p) (hpq : p ≤ q) (hq : q ≤ 100) :
    percentile s p ≤ percentile s q := by
  rcases Nat.lt_or_ge s.length 2 with hlt | hge
  · have hl1 : s.length = 1 := by omega
    rw [percentile_singleton s p hl1, percentile_singleton s q hl1]
  · rw [percentile_eq_interpAt s p hge, percentile_eq_interpAt s q hge]
    have hn1 : (1 : ℚ) ≤ (s.length : ℚ) - 1 := by
      have : (2 : ℚ) ≤ (s.length : ℚ) := by exact_mod_cast hge
      linarith
    apply interpAt_mono s hs
    · apply mul_nonneg (div_nonneg hp0 (by norm_num))
      linarith
    · apply mul_le_mul_of_nonneg_right _ (by linarith : (0:ℚ) ≤ (s.length : ℚ) - 1)
      linarith
    · have hqle : q / 100 ≤ 1 := by linarith [div_le_one_of_le hq (by norm_num : (0:ℚ) ≤ 100)]
      calc q / 100 * ((s.length : ℚ) - 1) ≤ 1 * ((s.length : ℚ) - 1) := by
            apply mul_le_mul_of_nonneg_right hqle; linarith
        _ = (s.length : ℚ) - 1 := by ring

/-- C1: for an ascending-sorted sequence `s` and `p ∈ [0,100]`,
`percentile` returns 0 on empty input, the sole element for length 1, and
for length ≥ 2 the linear interpolation `interpAt` between the elements at
ranks `⌊p/100*(n-1)⌋` and `⌈p/100*(n-1)⌉`; the result lies between the
first (min) and last (max) element of the sorted sequence, equals the min
at `p = 0` and the max at `p = 100`. -/
theorem percentile_spec (s : List ℚ) (p : ℚ) (hs : s.Sorted (· ≤ ·))
    (hp0 : 0 ≤ p) (hp1 : p ≤ 100) :
    (s.length = 0 → percentile s p = 0)
    ∧ (∀ x : ℚ, s = [x] → percentile s p = x)
    ∧ (2 ≤ s.length →
        percentile s p = interpAt s (p / 100 * ((s.length : ℚ) - 1))
        ∧ s.getD 0 0 ≤ percentile s p
        ∧ percentile s p ≤ s.getD (s.length - 1) 0
        ∧ (p = 0 → percentile s p = s.getD 0 0)
        ∧ (p = 100 → percentile s p = s.getD (s.length - 1) 0)) := by
  refine ⟨?_, ?_, ?_⟩
  · intro h0
    unfold percentile
    rw [h0]
    simp
  · intro x hx
    subst hx
    rfl
  · intro h2
    have hform := percentile_eq_interpAt s p h2
    have hbounds := percentile_bounds s hs p (by omega) hp0 hp1
    refine ⟨hform, hbounds.1, hbounds.2, ?_, ?_⟩
    · intro hp
      subst hp
      rw [hform]
      have hx : (0:ℚ) / 100 * ((s.length : ℚ) - 1) = ((0 : Int) : ℚ) := by push_cast; ring
      rw [hx, interpAt_intCast]
      rfl
    · intro hp
      subst hp
      rw [hform]
      have hx : (100:ℚ) / 100 * ((s.length : ℚ) - 1) = (((s.length : Int) - 1 : Int) : ℚ) := by
        push_cast; ring
      rw [hx, interpAt_intCast]
      unfold sGet
      congr 1
      omega

/-- Witness for C1 at `s = [1, 2, 4]`, `p = 95` (the definitions evaluate:
`percentile [1,2,4] 95 = 3.8`). -/
theorem percentile_spec_witness :
    percentile [(1:ℚ), 2, 4] 95 = 19/5
    ∧ (1:ℚ) ≤ percentile [(1:ℚ), 2, 4] 95
    ∧ percentile [(1:ℚ), 2, 4] 95 ≤ 4 := by
  have h := (percentile_spec [(1:ℚ), 2, 4] 95 (by norm_num) (by norm_num) (by norm_num)).2.2
    (by norm_num)
  have hc : ⌈(19:ℚ)/10⌉ = 2 := by rw [Int.ceil_eq_iff]; norm_num
  have hf : ⌊(19:ℚ)/10⌋ = 1 := by rw [Int.floor_eq_iff]; norm_num
  have ht : Int.toNat 2 = 2 := rfl
  refine ⟨by norm_num [percentile, hf, hc, ht], h.2.1, h.2.2.1⟩

/-- C5: for any sample collection and metric kind, the computed bundle is
all-zero when no sample matches, and satisfies
`min ≤ p50 ≤ p95 ≤ p99 ≤ max` when at least one sample matches. -/
theorem computePercentiles_spec (entries : List MetricEntry) (m : MetricType) :
    (entries.filter (fun e => e.metric = m) = [] →
        computePercentiles entries m = zeroResult)
    ∧ (entries.filter (fun e => e.metric = m) ≠ [] →
        0 < (computePercentiles entries m).count
        ∧ (computePercentiles entries m).min ≤ (computePercentiles entries m).p50
        ∧ (computePercentiles entries m).p50 ≤ (computePercentiles entries m).p95
        ∧ (computePercentiles entries m).p95 ≤ (computePercentiles entries m).p99
        ∧ (computePercentiles entries m).p99 ≤ (computePercentiles entries m).max) := by
  constructor
  · intro hempty
    unfold computePercentiles
    rw [hempty]
    rfl
  · intro hne
    have hlen : ((entries.filter (fun e => e.metric = m)).map (fun e => e.value)).length ≠ 0 := by
      simp only [List.length_map, ne_eq, List.length_eq_zero]
      exact hne
    unfold computePercentiles
    set values := List.insertionSort (· ≤ ·)
      ((entries.filter (fun e => e.metric = m)).map (fun e => e.value)) with hv
    have hvlen : values.length =
        ((entries.filter (fun e => e.metric = m)).map (fun e => e.value)).length := by
      rw [hv]
      exact List.length_insertionSort _ _
    have hvne : ¬ values.length = 0 := by omega
    have hvsorted : values.Sorted (· ≤ ·) := by
      rw [hv]
      exact List.sorted_insertionSort _ _
    have hv1 : 1 ≤ values.length := by omega
    rw [if_neg hvne]
    refine ⟨by simpa using Nat.pos_of_ne_zero hvne, ?_, ?_, ?_, ?_⟩
    · exact (percentile_bounds values hvsorted 50 hv1 (by norm_num) (by norm_num)).1
    · exact percentile_mono values hvsorted 50 95 hv1 (by norm_num) (by norm_num) (by norm_num)
    · exact percentile_mono values hvsorted 95 99 hv1 (by norm_num) (by norm_num) (by norm_num)
    · exact (percentile_bounds values hvsorted 99 hv1 (by norm_num) (by norm_num)).2

/-- Witness for C5: the empty collection gives the zero bundle, and a
singleton latency sample gives a bundle with the ordered chain. -/
theorem computePercentiles_spec_witness :
    computePercentiles [] .latency = zeroResult
    ∧ (0 < (computePercentiles [⟨"a", .latency, 10, 0, none⟩] .latency).count
       ∧ (computePercentiles [⟨"a", .latency, 10, 0, none⟩] .latency).min ≤
           (computePercentiles [⟨"a", .latency, 10, 0, none⟩] .latency).p50
       ∧ (computePercentiles [⟨"a", .latency, 10, 0, none⟩] .latency).p50 ≤
           (computePercentiles [⟨"a", .latency, 10, 0, none⟩] .latency).p95
       ∧ (computePercentiles [⟨"a", .latency, 10, 0, none⟩] .latency).p95 ≤
           (computePercentiles [⟨"a", .latency, 10, 0, none⟩] .latency).p99
       ∧ (computePercentiles [⟨"a", .latency, 10, 0, none⟩] .latency).p99 ≤
           (computePercentiles [⟨"a", .latency, 10, 0, none⟩] .latency).max) :=
  ⟨(computePercentiles_spec [] .latency).1 rfl,
   (computePercentiles_spec [⟨"a", .latency, 10, 0, none⟩] .latency).2 (by decide)⟩

/-! ## Shared window result types (`core/types`) -/

/-- `WindowSnapshot` from `core/types`. -/
structure WindowSnapshot where
  entries : List MetricEntry
  startTime : Int
  endTime : Int
  size : Nat
  totalPushed : Nat
  totalEvicted : Nat
deriving DecidableEq, Repr

/-- The `windowInfo` record inside a `MetricResult`. -/
@[ext]
structure WindowInfo where
  type : String
  startTime : Int
  endTime : Int
  entryCount : Nat
deriving DecidableEq, Repr

/-- `MetricResult` from `core/types` (the spec's AggregateResult). -/
structure MetricResult where
  latencyPercentiles : PercentileResult
  stagePercentiles : List (String × PercentileResult)
  totalErrors : ℚ
  stageErrors : List (String × ℚ)
  totalInvocations : Nat
  windowInfo : WindowInfo
  computedAt : Int
deriving DecidableEq, Repr

/-! ## Generic list access lemmas -/

theorem getD_map_range {α : Type} (f : Nat → α) (n i : Nat) (d : α) (h : i < n) :
    ((List.range n).map f).getD i d = f i := by
  simp [List.getD_eq_getElem?_getD, List.getElem?_map, List.getElem?_range h]

theorem getD_set_self {α : Type} (l : List α) (i : Nat) (a d : α) (h : i < l.length) :
    (l.set i a).getD i d = a := by
  simp [List.getD_eq_getElem?_getD, List.getElem?_set_self, h]

theorem getD_set_ne {α : Type} (l : List α) (i j : Nat) (a d : α) (h : i ≠ j) :
    (l.set i a).getD j d = l.getD j d := by
  simp [List.getD_eq_getElem?_getD, List.getElem?_set_ne h]

theorem getD_drop {α : Type} (l : List α) (i j : Nat) (d : α) :
    (l.drop i).getD j d = l.getD (i + j) d := by
  simp [List.getD_eq_getElem?_getD, List.getElem?_drop]

theorem getD_append_left {α : Type} (l l' : List α) (i : Nat) (d : α) (h : i < l.length) :
    (l ++ l').getD i d = l.getD i d := List.getD_append l l' d i h

theorem getD_append_len {α : Type} (l : List α) (a d : α) :
    (l ++ [a]).getD l.length d = a := by
  simp [List.getD_eq_getElem?_getD]

theorem getD_map_some {α : Type} (l : List α) (i : Nat) (d : α) (h : i < l.length) :
    (l.map some).getD i none = some (l.getD i d) := by
  simp [List.getD_eq_getElem?_getD, List.getElem?_map, List.getElem?_eq_getElem h]

theorem list_eq_of_getD {α : Type} (l1 l2 : List α) (d : α) (hlen : l1.length = l2.length)
    (h : ∀ i, i < l1.length → l1.getD i d = l2.getD i d) : l1 = l2 := by
  apply List.ext_get hlen
  intro n h1 h2
  have hd := h n h1
  rwa [List.getD_eq_get l1 d h1, List.getD_eq_get l2 d h2] at hd

theorem reduceOption_map_some {α : Type} (l : List α) : (l.map some).reduceOption = l := by
  induction l with
  | nil => rfl
  | cons a t ih => simp [List.reduceOption_cons_of_some, ih]

theorem mod_shift_ne (m r c : Nat) (h1 : 0 < r) (h2 : r < c) : (m + r) % c ≠ m % c := by
  intro h
  have hd : c ∣ m + r - m := (Nat.modEq_iff_dvd' (Nat.le_add_right m r)).mp (Nat.ModEq.symm h)
  have hr : m + r - m = r := by omega
  rw [hr] at hd
  have := Nat.le_of_dvd h1 hd
  omega

/-! ## RingBufferStrategy (`strategies/RingBufferStrategy.ts`) -/

/-- The mutable state of a `RingBufferStrategy` instance: circular buffer
(JS array holes modelled as `none`), write cursor, live count, capacity,
and the cumulative counters. -/
structure RingBufferStrategy where
  buffer : List (Option MetricEntry)
  head : Nat
  size : Nat
  maxSize : Nat
  totalPushed : Nat
  totalEvicted : Nat
deriving DecidableEq, Repr

namespace RingBufferStrategy

/-- JS `new Array(n)`: a hole-filled array of length `n`, or a thrown
`RangeError` when `n` is not a valid array length (negative or ≥ 2^32). -/
def newArray (n : Int) : Except String (List (Option MetricEntry)) :=
  if 0 ≤ n ∧ n < 4294967296 then Except.ok (List.replicate n.toNat none)
  else Except.error "Invalid array length"

/-- The constructor: `maxSize = config?.maxSize ?? 1000` and
`buffer = new Array(maxSize)`. No validation of the configured capacity is
performed; the only failure is the array allocation itself. -/
def create (config : Option Int) : Except String RingBufferStrategy :=
  let m := config.getD 1000
  (newArray m).map fun buf => ⟨buf, 0, 0, m.toNat, 0, 0⟩

/-- The freshly-constructed state at capacity `c`. -/
def init (c : Nat) : RingBufferStrategy := ⟨List.replicate c none, 0, 0, c, 0, 0⟩

/-- `push(entry)`: write at the cursor, advance modulo capacity, bump the
counters (`size` grows until full, then `totalEvicted` grows). -/
def push (s : RingBufferStrategy) (entry : MetricEntry) : RingBufferStrategy :=
  if s.size < s.maxSize then
    { s with buffer := s.buffer.set s.head (some entry),
             head := (s.head + 1) % s.maxSize,
             totalPushed := s.totalPushed + 1,
             size := s.size + 1 }
  else
    { s with buffer := s.buffer.set s.head (some entry),
             head := (s.head + 1) % s.maxSize,
             totalPushed := s.totalPushed + 1,
             totalEvicted := s.totalEvicted + 1 }

/-- `getEntries()`: the live entries in chronological order (oldest first;
wraps around from `head` once the buffer is full). -/
def getEntries (s : RingBufferStrategy) : List (Option MetricEntry) :=
  if s.size = 0 then []
  else if s.size < s.maxSize then
    (List.range s.size).map (fun i => s.buffer.getD i none)
  else
    (List.range s.maxSize).map (fun i => s.buffer.getD ((s.head + i) % s.maxSize) none)

/-- The entries consumed by the aggregation helpers. In every state
reachable from the constructor the slots read by `getEntries` have been
written, so this equals the JS entries array. -/
def entriesList (s : RingBufferStrategy) : List MetricEntry := s.getEntries.reduceOption

/-- `getPercentiles(metric)`. -/
def getPercentiles (s : RingBufferStrategy) (metric : MetricType) : PercentileResult :=
  computePercentiles s.entriesList metric

/-- `getStagePercentiles(stageName, metric)`. -/
def getStagePercentiles (s : RingBufferStrategy) (stageName : String)
    (metric : MetricType) : PercentileResult :=
  computePercentiles (s.entriesList.filter (fun e => e.stageName = stageName)) metric

/-- `getSnapshot()`. -/
def getSnapshot (s : RingBufferStrategy) : WindowSnapshot :=
  let entries := s.entriesList
  { entries := entries,
    startTime := match entries with | [] => 0 | e :: _ => e.timestamp,
    endTime := match entries.getLast? with | none => 0 | some e => e.timestamp,
    size := entries.length,
    totalPushed := s.totalPushed,
    totalEvicted := s.totalEvicted }

/-- `getMetricResult()`; the call instant `Date.now()` is passed in as `now`. -/
def getMetricResult (s : RingBufferStrategy) (now : Int) : MetricResult :=
  let entries := s.entriesList
  { latencyPercentiles := computePercentiles entries .latency,
    stagePercentiles := computeStagePercentiles entries .latency,
    totalErrors := ((entries.filter (fun e => e.metric = .errorCount)).map
      (fun e => e.value)).sum,
    stageErrors := computeStageErrors entries,
    totalInvocations := (entries.filter (fun e => e.metric = .stageInvocation)).length,
    windowInfo :=
      { type := "ringBuffer",
        startTime := match entries with | [] => now | e :: _ => e.timestamp,
        endTime := match entries.getLast? with | none => now | some e => e.timestamp,
        entryCount := entries.length },
    computedAt := now }

/-- `clear()`. -/
def clear (s : RingBufferStrategy) : RingBufferStrategy :=
  ⟨List.replicate s.maxSize none, 0, 0, s.maxSize, 0, 0⟩

/-- `getSize()`. -/
def getSize (s : RingBufferStrategy) : Nat := s.size

/-- The abstraction invariant tying a reachable ring-buffer state to the
full history `hist` of pushed entries. -/
def Inv (c : Nat) (hist : List MetricEntry) (s : RingBufferStrategy) : Prop :=
  s.maxSize = c
  ∧ s.buffer.length = c
  ∧ s.head = hist.length % c
  ∧ s.size = min hist.length c
  ∧ s.totalPushed = hist.length
  ∧ s.totalEvicted = hist.length - min hist.length c
  ∧ s.getEntries = (hist.drop (hist.length - c)).map some

theorem inv_init (c : Nat) : Inv c [] (init c) := by
  refine ⟨rfl, List.length_replicate c none, by simp [init], by simp [init], rfl,
    by simp [init], ?_⟩
  simp [getEntries, init]

end RingBufferStrategy

namespace RingBufferStrategy

theorem push_eq_of_lt (s : RingBufferStrategy) (e : MetricEntry) (h : s.size < s.maxSize) :
    s.push e = ⟨s.buffer.set s.head (some e), (s.head + 1) % s.maxSize, s.size + 1,
      s.maxSize, s.totalPushed + 1, s.totalEvicted⟩ := by
  rw [push, if_pos h]

theorem push_eq_of_ge (s : RingBufferStrategy) (e : MetricEntry) (h : ¬ s.size < s.maxSize) :
    s.push e = ⟨s.buffer.set s.head (some e), (s.head + 1) % s.maxSize, s.size,
      s.maxSize, s.totalPushed + 1, s.totalEvicted + 1⟩ := by
  rw [push, if_neg h]

theorem getEntries_notFull (s : RingBufferStrategy) (h0 : s.size ≠ 0)
    (hlt : s.size < s.maxSize) :
    s.getEntries = (List.range s.size).map (fun i => s.buffer.getD i none) := by
  unfold getEntries
  rw [if_neg h0, if_pos hlt]

theorem getEntries_full (s : RingBufferStrategy) (h0 : s.size ≠ 0)
    (hge : ¬ s.size < s.maxSize) :
    s.getEntries =
      (List.range s.maxSize).map (fun i => s.buffer.getD ((s.head + i) % s.maxSize) none) := by
  unfold getEntries
  rw [if_neg h0, if_neg hge]

theorem length_getEntries (s : RingBufferStrategy) (h : s.size ≤ s.maxSize) :
    s.getEntries.length = s.size := by
  unfold getEntries
  by_cases h0 : s.size = 0
  · rw [if_pos h0, h0]
    rfl
  · rw [if_neg h0]
    by_cases hlt : s.size < s.maxSize
    · rw [if_pos hlt]
      simp
    · rw [if_neg hlt]
      simp
      omega

theorem inv_push (c : Nat) (hc : 0 < c) (hist : List MetricEntry) (s : RingBufferStrategy)
    (e : MetricEntry) (h : Inv c hist s) : Inv c (hist ++ [e]) (s.push e) := by
  obtain ⟨hmax, hbuf, hhead, hsize, hpush, hevict, hent⟩ := h
  set m := hist.length with hm
  have hlen' : (hist ++ [e]).length = m + 1 := by simp [hm]
  by_cases hfull : m < c
  · -- buffer not yet full: size grows
    have hsz : s.size = m := by rw [hsize]; omega
    have hhd : s.head = m := by rw [hhead]; exact Nat.mod_eq_of_lt hfull
    have hcond : s.size < s.maxSize := by omega
    rw [push_eq_of_lt s e hcond]
    have hdropOld : m - c = 0 := by omega
    have hdropNew : m + 1 - c = 0 := by omega
    refine ⟨hmax, by simpa using hbuf, ?_, ?_, ?_, ?_, ?_⟩
    · show (s.head + 1) % s.maxSize = (hist ++ [e]).length % c
      rw [hhd, hmax, hlen']
    · show s.size + 1 = min (hist ++ [e]).length c
      rw [hsz, hlen']; omega
    · show s.totalPushed + 1 = (hist ++ [e]).length
      rw [hpush, hlen']
    · show s.totalEvicted = (hist ++ [e]).length - min (hist ++ [e]).length c
      rw [hevict, hlen']; omega
    · -- the chronological view gains the new entry at the end
      rw [hlen', hdropNew, List.drop_zero]
      set s' : RingBufferStrategy := ⟨s.buffer.set s.head (some e), (s.head + 1) % s.maxSize,
        s.size + 1, s.maxSize, s.totalPushed + 1, s.totalEvicted⟩ with hs'
      have hs'size : s'.size = m + 1 := by rw [hs']; show s.size + 1 = m + 1; omega
      have hs'buf : s'.buffer = s.buffer.set m (some e) := by rw [hs', hhd]
      have hs'max : s'.maxSize = c := hmax
      have hs'buflen : s'.buffer.length = c := by rw [hs'buf]; simpa using hbuf
      have hread : ∀ i, i < m + 1 → s'.getEntries.getD i none = s'.buffer.getD i none := by
        intro i hi
        by_cases hcase : m + 1 < c
        · rw [getEntries_notFull s' (by omega) (by omega)]
          rw [getD_map_range _ _ _ _ (by omega : i < s'.size)]
        · have hceq : m + 1 = c := by omega
          have hh0 : s'.head = 0 := by
            show (s.head + 1) % s.maxSize = 0
            rw [hhd, hmax, hceq, Nat.mod_self]
          rw [getEntries_full s' (by omega) (by omega)]
          rw [getD_map_range _ _ _ _ (by omega : i < s'.maxSize)]
          rw [hh0, hs'max]
          have hzi : (0 + i) % c = i := by rw [Nat.zero_add]; exact Nat.mod_eq_of_lt (by omega)
          rw [hzi]
      have hold : ∀ i, i < m → s.buffer.getD i none = some (hist.getD i default) := by
        intro i hi
        have hsne : s.size ≠ 0 := by omega
        have h1 := congrArg (fun l => l.getD i none) hent
        simp only [hdropOld, List.drop_zero] at h1
        rw [getEntries_notFull s hsne hcond] at h1
        rw [getD_map_range _ _ _ _ (by omega : i < s.size)] at h1
        rw [getD_map_some hist i default (by omega)] at h1
        exact h1
      apply list_eq_of_getD _ _ none
      · rw [length_getEntries s' (by omega), hs'size]
        simp [hm]
      · intro i hi
        rw [length_getEntries s' (by omega), hs'size] at hi
        rw [hread i hi, hs'buf]
        rw [getD_map_some (hist ++ [e]) i default (by omega)]
        by_cases hieq : i = m
        · subst hieq
          rw [getD_set_self _ _ _ _ (by omega : m < s.buffer.length)]
          rw [hm, getD_append_len]
        · rw [getD_set_ne _ _ _ _ _ (by omega : m ≠ i)]
          rw [hold i (by omega)]
          rw [getD_append_left hist [e] i default (by omega)]
  · -- buffer full: the oldest slot is overwritten
    have hcm : c ≤ m := by omega
    have hsz : s.size = c := by rw [hsize]; omega
    have hcond : ¬ s.size < s.maxSize := by omega
    rw [push_eq_of_ge s e hcond]
    refine ⟨hmax, by simpa using hbuf, ?_, ?_, ?_, ?_, ?_⟩
    · show (s.head + 1) % s.maxSize = (hist ++ [e]).length % c
      rw [hhead, hmax, hlen', Nat.mod_add_mod]
    · show s.size = min (hist ++ [e]).length c
      rw [hsz, hlen']; omega
    · show s.totalPushed + 1 = (hist ++ [e]).length
      rw [hpush, hlen']
    · show s.totalEvicted + 1 = (hist ++ [e]).length - min (hist ++ [e]).length c
      rw [hevict, hlen']; omega
    · rw [hlen']
      set s' : RingBufferStrategy := ⟨s.buffer.set s.head (some e), (s.head + 1) % s.maxSize,
        s.size, s.maxSize, s.totalPushed + 1, s.totalEvicted + 1⟩ with hs'
      have hs'size : s'.size = c := hsz
      have hs'max : s'.maxSize = c := hmax
      have hs'buf : s'.buffer = s.buffer.set (m % c) (some e) := by rw [hs', hhead]
      have hs'buflen : s'.buffer.length = c := by rw [hs'buf]; simpa using hbuf
      have hs'head : s'.head = (m + 1) % c := by
        show (s.head + 1) % s.maxSize = (m + 1) % c
        rw [hhead, hmax, Nat.mod_add_mod]
      have hold : ∀ j, j < c →
          s.buffer.getD ((m % c + j) % c) none = some (hist.getD (m - c + j) default) := by
        intro j hj
        have hsne : s.size ≠ 0 := by omega
        have h1 := congrArg (fun l => l.getD j none) hent
        rw [getEntries_full s hsne hcond] at h1
        simp only at h1
        rw [getD_map_range _ _ _ _ (by omega : j < s.maxSize)] at h1
        rw [getD_map_some (hist.drop (m - c)) j default
          (by rw [List.length_drop]; omega)] at h1
        rw [getD_drop] at h1
        rw [hhead, hmax] at h1
        exact h1
      apply list_eq_of_getD _ _ none
      · rw [length_getEntries s' (by omega), hs'size, List.length_map, List.length_drop, hlen']
        omega
      · intro i hi
        rw [length_getEntries s' (by omega), hs'size] at hi
        have hgd : s'.getEntries.getD i none = s'.buffer.getD ((m + 1 + i) % c) none := by
          rw [getEntries_full s' (by omega) (by omega)]
          rw [getD_map_range _ _ _ _ (by omega : i < s'.maxSize)]
          rw [hs'head, hs'max, Nat.mod_add_mod]
        rw [hgd]
        rw [getD_map_some ((hist ++ [e]).drop (m + 1 - c)) i default
          (by rw [List.length_drop]; omega)]
        rw [getD_drop]
        by_cases hieq : i = c - 1
        · have hidx : m + 1 + i = m + c := by omega
          rw [hidx, Nat.add_mod_right, hs'buf]
          rw [getD_set_self _ _ _ _ (by rw [hbuf]; exact Nat.mod_lt m hc)]
          have hidx2 : m + 1 - c + i = m := by omega
          rw [hidx2, hm, getD_append_len]
        · have hne : (m + 1 + i) % c ≠ m % c := by
            have h2 : m + 1 + i = m + (1 + i) := by omega
            rw [h2]
            exact mod_shift_ne m (1 + i) c (by omega) (by omega)
          rw [hs'buf]
          rw [getD_set_ne _ _ _ _ _ (fun hcon => hne hcon.symm)]
          have h3 : (m + 1 + i) % c = (m % c + (i + 1)) % c := by
            rw [Nat.mod_add_mod]
            congr 1
            omega
          rw [h3, hold (i + 1) (by omega)]
          have hidx3 : m - c + (i + 1) = m + 1 - c + i := by omega
          rw [hidx3]
          rw [getD_append_left hist [e] (m + 1 - c + i) default (by omega)]

end RingBufferStrategy

namespace RingBufferStrategy

theorem inv_foldl (c : Nat) (hc : 0 < c) (L : List MetricEntry) :
    ∀ (hist : List MetricEntry) (s : RingBufferStrategy),
      Inv c hist s → Inv c (hist ++ L) (L.foldl push s) := by
  induction L with
  | nil =>
    intro hist s h
    simpa using h
  | cons e t ih =>
    intro hist s h
    have h1 := inv_push c hc hist s e h
    have h2 := ih (hist ++ [e]) (s.push e) h1
    simpa [List.append_assoc] using h2

end RingBufferStrategy

/-- C2: pushing `c + k` samples (`c > 0`, `k ≥ 1`) into an empty ring
buffer of capacity `c` retains exactly the last `c` samples, the snapshot
lists them in ingestion (chronological) order, and `totalEvicted = k`. -/
theorem ringBuffer_retains_last (c k : Nat) (L : List MetricEntry)
    (hc : 0 < c) (hk : 1 ≤ k) (hL : L.length = c + k) :
    (L.foldl RingBufferStrategy.push (RingBufferStrategy.init c)).getEntries
        = (L.drop k).map some
    ∧ (L.foldl RingBufferStrategy.push (RingBufferStrategy.init c)).getSnapshot.entries
        = L.drop k
    ∧ (L.foldl RingBufferStrategy.push (RingBufferStrategy.init c)).totalEvicted = k
    ∧ (L.foldl RingBufferStrategy.push
        (RingBufferStrategy.init c)).getSnapshot.totalEvicted = k := by
  have hinv := RingBufferStrategy.inv_foldl c hc L [] (RingBufferStrategy.init c)
    (RingBufferStrategy.inv_init c)
  rw [List.nil_append] at hinv
  obtain ⟨hmax, hbuf, hhead, hsize, hpush, hevict, hent⟩ := hinv
  have hdrop : L.length - c = k := by omega
  have hge : (L.foldl RingBufferStrategy.push (RingBufferStrategy.init c)).getEntries
      = (L.drop k).map some := by
    rw [hent, hdrop]
  have hsnap : (L.foldl RingBufferStrategy.push
      (RingBufferStrategy.init c)).getSnapshot.entries = L.drop k := by
    show (L.foldl RingBufferStrategy.push (RingBufferStrategy.init c)).entriesList = L.drop k
    unfold RingBufferStrategy.entriesList
    rw [hge]
    exact reduceOption_map_some (L.drop k)
  have hev : (L.foldl RingBufferStrategy.push (RingBufferStrategy.init c)).totalEvicted = k := by
    rw [hevict]
    omega
  exact ⟨hge, hsnap, hev, hev⟩

/-- Witness for C2: capacity 2, three pushes; the first sample is evicted
and the snapshot holds the last two in order. -/
theorem ringBuffer_retains_last_witness :
    ([⟨"s", .latency, 1, 1, none⟩, ⟨"s", .latency, 2, 2, none⟩,
        ⟨"s", .latency, 3, 3, none⟩] : List MetricEntry).length = 2 + 1
    ∧ (([⟨"s", .latency, 1, 1, none⟩, ⟨"s", .latency, 2, 2, none⟩,
        ⟨"s", .latency, 3, 3, none⟩] : List MetricEntry).foldl RingBufferStrategy.push
          (RingBufferStrategy.init 2)).getSnapshot.entries
        = ([⟨"s", .latency, 1, 1, none⟩, ⟨"s", .latency, 2, 2, none⟩,
            ⟨"s", .latency, 3, 3, none⟩] : List MetricEntry).drop 1
    ∧ (([⟨"s", .latency, 1, 1, none⟩, ⟨"s", .latency, 2, 2, none⟩,
        ⟨"s", .latency, 3, 3, none⟩] : List MetricEntry).foldl RingBufferStrategy.push
          (RingBufferStrategy.init 2)).totalEvicted = 1 := by
  have h := ringBuffer_retains_last 2 1
    [⟨"s", .latency, 1, 1, none⟩, ⟨"s", .latency, 2, 2, none⟩, ⟨"s", .latency, 3, 3, none⟩]
    (by decide) (by decide) (by decide)
  exact ⟨by decide, h.2.1, h.2.2.1⟩

/-- C8 counterexample: constructing a ring buffer with capacity 0 succeeds
(an instance is produced), contradicting the claim that a capacity of 0 is
rejected at construction. -/
theorem ringBuffer_create_zero_accepted :
    RingBufferStrategy.create (some 0) = Except.ok (RingBufferStrategy.init 0) := by
  rfl

/-- C8 amended: the constructor performs no capacity validation. A negative
capacity fails only because the JS array allocation (`new Array(n)`) throws
`RangeError`; a capacity of 0 (a valid array length) is accepted and
produces an instance. -/
theorem ringBuffer_create_validation (n : Int) :
    (n < 0 → (RingBufferStrategy.create (some n)).isOk = false)
    ∧ (0 ≤ n → n < 4294967296 → (RingBufferStrategy.create (some n)).isOk = true) := by
  constructor
  · intro h
    have hcond : ¬ (0 ≤ n ∧ n < 4294967296) := by omega
    simp [RingBufferStrategy.create, RingBufferStrategy.newArray, hcond, Except.map, Except.isOk,
      Except.toBool]
  · intro h1 h2
    simp [RingBufferStrategy.create, RingBufferStrategy.newArray, h1, h2, Except.map, Except.isOk,
      Except.toBool]

/-- Witness for the amended C8: capacity −1 is rejected by the array
allocation, capacity 5 is accepted. -/
theorem ringBuffer_create_validation_witness :
    (RingBufferStrategy.create (some (-1))).isOk = false
    ∧ (RingBufferStrategy.create (some 5)).isOk = true :=
  ⟨(ringBuffer_create_validation (-1)).1 (by norm_num),
   (ringBuffer_create_validation 5).2 (by norm_num) (by norm_num)⟩

/-! ## SlidingWindowStrategy (`strategies/SlidingWindowStrategy.js`) -/

/-- The state of a `SlidingWindowStrategy`: the retained entries (in
insertion order), the window duration, and the cumulative counters. -/
structure SlidingWindowStrategy where
  entries : List MetricEntry
  windowMs : Int
  totalPushed : Nat
  totalEvicted : Nat
deriving DecidableEq, Repr

namespace SlidingWindowStrategy

/-- The constructor: `windowMs = config?.windowMs ?? 300_000`. -/
def create (config : Option Int) : SlidingWindowStrategy :=
  ⟨[], config.getD 300000, 0, 0⟩

/-- `evictStale(referenceTime)`: drop every entry with
`timestamp < referenceTime - windowMs`, keeping the rest in order, and add
the removed count to `totalEvicted`. -/
def evictStale (s : SlidingWindowStrategy) (referenceTime : Int) : SlidingWindowStrategy :=
  let kept := s.entries.filter (fun e => referenceTime - s.windowMs ≤ e.timestamp)
  { s with entries := kept,
           totalEvicted := s.totalEvicted + (s.entries.length - kept.length) }

/-- `push(entry)`: append, bump `totalPushed`, then evict using the pushed
entry's timestamp as the reference instant. -/
def push (s : SlidingWindowStrategy) (entry : MetricEntry) : SlidingWindowStrategy :=
  evictStale { s with entries := s.entries ++ [entry], totalPushed := s.totalPushed + 1 }
    entry.timestamp

/-- `getPercentiles(metric)`; evicts at the call instant `now`, then
computes over the remaining entries. Returns the result with the mutated
state. -/
def getPercentiles (s : SlidingWindowStrategy) (now : Int) (metric : MetricType) :
    PercentileResult × SlidingWindowStrategy :=
  let s' := evictStale s now
  (computePercentiles s'.entries metric, s')

/-- `getStagePercentiles(stageName, metric)`. -/
def getStagePercentiles (s : SlidingWindowStrategy) (now : Int) (stageName : String)
    (metric : MetricType) : PercentileResult × SlidingWindowStrategy :=
  let s' := evictStale s now
  (computePercentiles (s'.entries.filter (fun e => e.stageName = stageName)) metric, s')

/-- `getSnapshot()`; evicts at the call instant `now`. -/
def getSnapshot (s : SlidingWindowStrategy) (now : Int) :
    WindowSnapshot × SlidingWindowStrategy :=
  let s' := evictStale s now
  ({ entries := s'.entries,
     startTime := now - s.windowMs,
     endTime := now,
     size := s'.entries.length,
     totalPushed := s'.totalPushed,
     totalEvicted := s'.totalEvicted }, s')

/-- `getMetricResult()`; evicts at the call instant `now`. -/
def getMetricResult (s : SlidingWindowStrategy) (now : Int) :
    MetricResult × SlidingWindowStrategy :=
  let s' := evictStale s now
  ({ latencyPercentiles := computePercentiles s'.entries .latency,
     stagePercentiles := computeStagePercentiles s'.entries .latency,
     totalErrors := ((s'.entries.filter (fun e => e.metric = .errorCount)).map
       (fun e => e.value)).sum,
     stageErrors := computeStageErrors s'.entries,
     totalInvocations := (s'.entries.filter (fun e => e.metric = .stageInvocation)).length,
     windowInfo :=
       { type := "sliding",
         startTime := now - s.windowMs,
         endTime := now,
         entryCount := s'.entries.length },
     computedAt := now }, s')

/-- `clear()`. -/
def clear (s : SlidingWindowStrategy) : SlidingWindowStrategy :=
  ⟨[], s.windowMs, 0, 0⟩

end SlidingWindowStrategy

/-- C4: an eviction pass at reference `r` removes exactly the samples with
timestamp older than `r - windowMs` (keeping the remaining ones as an
order-preserving sublist) and adds the removed count to `totalEvicted`;
`push` uses the pushed sample's timestamp as the reference, so pushing a
sample at `t = 0` and then one at `t = windowMs + 1` leaves only the
second sample retained, and the first is absent from every snapshot. -/
theorem sliding_eviction_spec (s : SlidingWindowStrategy) (r : Int) (w : Int)
    (e1 e2 : MetricEntry) (hw : 0 < w) (ht1 : e1.timestamp = 0)
    (ht2 : e2.timestamp = w + 1) :
    (s.evictStale r).entries
        = s.entries.filter (fun e => r - s.windowMs ≤ e.timestamp)
    ∧ (s.evictStale r).entries.Sublist s.entries
    ∧ (s.evictStale r).totalEvicted
        = s.totalEvicted + (s.entries.length - (s.evictStale r).entries.length)
    ∧ (((SlidingWindowStrategy.create (some w)).push e1).push e2).entries = [e2]
    ∧ ∀ now : Int,
        e1 ∉ (((((SlidingWindowStrategy.create (some w)).push e1).push e2).getSnapshot
          now).1).entries := by
  have hfil : (s.evictStale r).entries
      = s.entries.filter (fun e => r - s.windowMs ≤ e.timestamp) := rfl
  have hsub : (s.evictStale r).entries.Sublist s.entries := by
    rw [hfil]
    exact List.filter_sublist s.entries
  have hcount : (s.evictStale r).totalEvicted
      = s.totalEvicted + (s.entries.length - (s.evictStale r).entries.length) := rfl
  have hne : e1 ≠ e2 := by
    intro hcon
    rw [hcon, ht2] at ht1
    omega
  have hs1 : ((SlidingWindowStrategy.create (some w)).push e1).entries = [e1] := by
    unfold SlidingWindowStrategy.push SlidingWindowStrategy.evictStale
      SlidingWindowStrategy.create
    simp only [Option.getD_some, List.nil_append, List.length_cons]
    rw [List.filter_cons]
    simp only [List.filter_nil]
    rw [if_pos]
    simp only [decide_eq_true_eq, ht1]
    omega
  have hw1 : ((SlidingWindowStrategy.create (some w)).push e1).windowMs = w := rfl
  have hs2 : (((SlidingWindowStrategy.create (some w)).push e1).push e2).entries = [e2] := by
    have hstep : (((SlidingWindowStrategy.create (some w)).push e1).push e2).entries
        = (((SlidingWindowStrategy.create (some w)).push e1).entries ++ [e2]).filter
            (fun e => e2.timestamp -
              ((SlidingWindowStrategy.create (some w)).push e1).windowMs ≤ e.timestamp) := rfl
    rw [hstep, hs1, hw1]
    rw [List.cons_append, List.nil_append, List.filter_cons, List.filter_cons, List.filter_nil]
    rw [if_neg, if_pos]
    · simp only [decide_eq_true_eq, ht2]
      omega
    · simp only [decide_eq_true_eq, ht1, ht2]
      omega
  refine ⟨hfil, hsub, hcount, hs2, ?_⟩
  intro now hmem
  have hsnap : ((((((SlidingWindowStrategy.create (some w)).push e1).push e2).getSnapshot
      now).1)).entries
      = ((((SlidingWindowStrategy.create (some w)).push e1).push e2).entries).filter
          (fun e => now -
            (((SlidingWindowStrategy.create (some w)).push e1).push e2).windowMs
            ≤ e.timestamp) := rfl
  rw [hsnap, hs2] at hmem
  have hmem2 : e1 ∈ [e2] := List.mem_of_mem_filter hmem
  rw [List.mem_singleton] at hmem2
  exact hne hmem2


/-- Witness for C4: window 10ms, pushes at t=0 and t=11; only the second
sample remains and the first is absent from the snapshot. -/
theorem sliding_eviction_spec_witness :
    (((SlidingWindowStrategy.create (some 10)).push ⟨"s", .latency, 1, 0, none⟩).push
        ⟨"s", .latency, 2, 11, none⟩).entries = [⟨"s", .latency, 2, 11, none⟩]
    ∧ (⟨"s", .latency, 1, 0, none⟩ : MetricEntry) ∉
        (((((SlidingWindowStrategy.create (some 10)).push ⟨"s", .latency, 1, 0, none⟩).push
          ⟨"s", .latency, 2, 11, none⟩).getSnapshot 11).1).entries := by
  have h := sliding_eviction_spec (SlidingWindowStrategy.create (some 10)) 0 10
    ⟨"s", .latency, 1, 0, none⟩ ⟨"s", .latency, 2, 11, none⟩ (by norm_num) rfl (by norm_num)
  exact ⟨h.2.2.2.1, h.2.2.2.2 11⟩

/-! ## Operation sequences for the counter-conservation invariant -/

/-- An operation against a ring buffer: an ingest, or any query (ring
buffer queries do not mutate state). -/
inductive RingOp where
  | push (e : MetricEntry)
  | query
deriving Repr

/-- Apply one operation to a ring buffer. -/
def applyRing (s : RingBufferStrategy) : RingOp → RingBufferStrategy
  | RingOp.push e => s.push e
  | RingOp.query => s

/-- The entries pushed by a sequence of ring-buffer operations. -/
def ringPushed (ops : List RingOp) : List MetricEntry :=
  ops.filterMap (fun op => match op with | RingOp.push e => some e | RingOp.query => none)

/-- An operation against a sliding window: an ingest, or the eviction pass
performed by any query at its call instant. -/
inductive SlidingOp where
  | push (e : MetricEntry)
  | evict (now : Int)
deriving Repr

/-- Apply one operation to a sliding window. -/
def applySliding (s : SlidingWindowStrategy) : SlidingOp → SlidingWindowStrategy
  | SlidingOp.push e => s.push e
  | SlidingOp.evict now => s.evictStale now

theorem foldl_applyRing (ops : List RingOp) :
    ∀ s : RingBufferStrategy,
      ops.foldl applyRing s = (ringPushed ops).foldl RingBufferStrategy.push s := by
  induction ops with
  | nil => intro s; rfl
  | cons op t ih =>
    intro s
    cases op with
    | push e =>
      show t.foldl applyRing (s.push e)
          = (ringPushed (RingOp.push e :: t)).foldl RingBufferStrategy.push s
      have : ringPushed (RingOp.push e :: t) = e :: ringPushed t := rfl
      rw [this]
      exact ih (s.push e)
    | query =>
      show t.foldl applyRing s = (ringPushed (RingOp.query :: t)).foldl RingBufferStrategy.push s
      have : ringPushed (RingOp.query :: t) = ringPushed t := rfl
      rw [this]
      exact ih s

theorem sliding_evict_counters (s : SlidingWindowStrategy) (r : Int)
    (h : s.totalPushed = s.entries.length + s.totalEvicted) :
    (s.evictStale r).totalPushed
      = (s.evictStale r).entries.length + (s.evictStale r).totalEvicted := by
  have hle : (s.entries.filter (fun e => r - s.windowMs ≤ e.timestamp)).length
      ≤ s.entries.length := List.length_filter_le _ _
  show s.totalPushed
      = (s.entries.filter (fun e => r - s.windowMs ≤ e.timestamp)).length
        + (s.totalEvicted + (s.entries.length
            - (s.entries.filter (fun e => r - s.windowMs ≤ e.timestamp)).length))
  omega

theorem sliding_push_counters (s : SlidingWindowStrategy) (e : MetricEntry)
    (h : s.totalPushed = s.entries.length + s.totalEvicted) :
    (s.push e).totalPushed = (s.push e).entries.length + (s.push e).totalEvicted := by
  apply sliding_evict_counters
  show s.totalPushed + 1 = (s.entries ++ [e]).length + s.totalEvicted
  rw [List.length_append, List.length_singleton]
  omega

theorem sliding_fold_counters (sops : List SlidingOp) :
    ∀ t : SlidingWindowStrategy, t.totalPushed = t.entries.length + t.totalEvicted →
      (sops.foldl applySliding t).totalPushed
        = (sops.foldl applySliding t).entries.length
          + (sops.foldl applySliding t).totalEvicted := by
  induction sops with
  | nil => intro t h; exact h
  | cons op rest ih =>
    intro t h
    cases op with
    | push e => exact ih (t.push e) (sliding_push_counters t e h)
    | evict now => exact ih (t.evictStale now) (sliding_evict_counters t now h)

/-- C10: for the ring buffer and the sliding window, starting from the
empty state, after any sequence of ingest and query operations the counter
equation `totalPushed = retained size + totalEvicted` holds both in the
state and in every snapshot, and `clear()` resets size, `totalPushed` and
`totalEvicted` to zero. -/
theorem counters_conservation (c : Nat) (ops : List RingOp) (w : Int)
    (sops : List SlidingOp) (now : Int) (hc : 0 < c) :
    ((ops.foldl applyRing (RingBufferStrategy.init c)).totalPushed
        = (ops.foldl applyRing (RingBufferStrategy.init c)).size
          + (ops.foldl applyRing (RingBufferStrategy.init c)).totalEvicted)
    ∧ ((ops.foldl applyRing (RingBufferStrategy.init c)).getSnapshot.totalPushed
        = (ops.foldl applyRing (RingBufferStrategy.init c)).getSnapshot.size
          + (ops.foldl applyRing (RingBufferStrategy.init c)).getSnapshot.totalEvicted)
    ∧ (ops.foldl applyRing (RingBufferStrategy.init c)).clear.size = 0
    ∧ (ops.foldl applyRing (RingBufferStrategy.init c)).clear.totalPushed = 0
    ∧ (ops.foldl applyRing (RingBufferStrategy.init c)).clear.totalEvicted = 0
    ∧ ((sops.foldl applySliding (SlidingWindowStrategy.create (some w))).totalPushed
        = (sops.foldl applySliding (SlidingWindowStrategy.create (some w))).entries.length
          + (sops.foldl applySliding (SlidingWindowStrategy.create (some w))).totalEvicted)
    ∧ ((((sops.foldl applySliding
            (SlidingWindowStrategy.create (some w))).getSnapshot now).1).totalPushed
        = (((sops.foldl applySliding
            (SlidingWindowStrategy.create (some w))).getSnapshot now).1).size
          + (((sops.foldl applySliding
              (SlidingWindowStrategy.create (some w))).getSnapshot now).1).totalEvicted)
    ∧ (sops.foldl applySliding (SlidingWindowStrategy.create (some w))).clear.entries = []
    ∧ (sops.foldl applySliding (SlidingWindowStrategy.create (some w))).clear.totalPushed = 0
    ∧ (sops.foldl applySliding
        (SlidingWindowStrategy.create (some w))).clear.totalEvicted = 0 := by
  have hinv := RingBufferStrategy.inv_foldl c hc (ringPushed ops) []
    (RingBufferStrategy.init c) (RingBufferStrategy.inv_init c)
  rw [List.nil_append, ← foldl_applyRing ops] at hinv
  obtain ⟨hmax, hbuf, hhead, hsize, hpush, hevict, hent⟩ := hinv
  have hring1 : (ops.foldl applyRing (RingBufferStrategy.init c)).totalPushed
      = (ops.foldl applyRing (RingBufferStrategy.init c)).size
        + (ops.foldl applyRing (RingBufferStrategy.init c)).totalEvicted := by
    rw [hpush, hsize, hevict]
    omega
  have hlistlen : (ops.foldl applyRing (RingBufferStrategy.init c)).entriesList.length
      = min (ringPushed ops).length c := by
    unfold RingBufferStrategy.entriesList
    rw [hent, reduceOption_map_some, List.length_drop]
    omega
  have hring2 : (ops.foldl applyRing (RingBufferStrategy.init c)).getSnapshot.totalPushed
      = (ops.foldl applyRing (RingBufferStrategy.init c)).getSnapshot.size
        + (ops.foldl applyRing (RingBufferStrategy.init c)).getSnapshot.totalEvicted := by
    show (ops.foldl applyRing (RingBufferStrategy.init c)).totalPushed
        = (ops.foldl applyRing (RingBufferStrategy.init c)).entriesList.length
          + (ops.foldl applyRing (RingBufferStrategy.init c)).totalEvicted
    rw [hpush, hlistlen, hevict]
    omega
  have hslide := sliding_fold_counters sops (SlidingWindowStrategy.create (some w)) rfl
  have hslide2 := sliding_evict_counters
    (sops.foldl applySliding (SlidingWindowStrategy.create (some w))) now hslide
  exact ⟨hring1, hring2, rfl, rfl, rfl, hslide, hslide2, rfl, rfl, rfl⟩

/-- Witness for C10 at a concrete operation sequence (capacity 1, two
pushes and a query; window 5 with one push and one query eviction). -/
theorem counters_conservation_witness :
    (([RingOp.push ⟨"s", .latency, 1, 1, none⟩, RingOp.query,
        RingOp.push ⟨"s", .latency, 2, 2, none⟩].foldl applyRing
          (RingBufferStrategy.init 1)).totalPushed
      = ([RingOp.push ⟨"s", .latency, 1, 1, none⟩, RingOp.query,
          RingOp.push ⟨"s", .latency, 2, 2, none⟩].foldl applyRing
            (RingBufferStrategy.init 1)).size
        + ([RingOp.push ⟨"s", .latency, 1, 1, none⟩, RingOp.query,
            RingOp.push ⟨"s", .latency, 2, 2, none⟩].foldl applyRing
              (RingBufferStrategy.init 1)).totalEvicted)
    ∧ (([SlidingOp.push ⟨"s", .latency, 1, 0, none⟩, SlidingOp.evict 100].foldl applySliding
          (SlidingWindowStrategy.create (some 5))).totalPushed
      = ([SlidingOp.push ⟨"s", .latency, 1, 0, none⟩, SlidingOp.evict 100].foldl applySliding
            (SlidingWindowStrategy.create (some 5))).entries.length
        + ([SlidingOp.push ⟨"s", .latency, 1, 0, none⟩, SlidingOp.evict 100].foldl applySliding
              (SlidingWindowStrategy.create (some 5))).totalEvicted) := by
  have h := counters_conservation 1
    [RingOp.push ⟨"s", .latency, 1, 1, none⟩, RingOp.query,
      RingOp.push ⟨"s", .latency, 2, 2, none⟩] 5
    [SlidingOp.push ⟨"s", .latency, 1, 0, none⟩, SlidingOp.evict 100] 100 (by decide)
  exact ⟨h.1, h.2.2.2.2.2.1⟩

/-! ## TumblingWindowStrategy (`strategies/TumblingWindowStrategy.ts`) -/

/-- An archived bucket (`MetricBucket`). -/
@[ext]
structure MetricBucket where
  entries : List MetricEntry
  startTime : Int
  endTime : Int
  percentiles : PercentileResult
deriving DecidableEq, Repr

/-- The state of a `TumblingWindowStrategy`. -/
@[ext]
structure TumblingWindowStrategy where
  currentBucket : List MetricEntry
  bucketStartTime : Int
  windowMs : Int
  maxArchivedBuckets : Nat
  archivedBuckets : List MetricBucket
  totalPushed : Nat
  totalEvicted : Nat
deriving DecidableEq, Repr

namespace TumblingWindowStrategy

/-- The constructor; `now` is the construction instant (`Date.now()`). -/
def create (windowMs : Option Int) (maxArchivedBuckets : Option Nat) (now : Int) :
    TumblingWindowStrategy :=
  ⟨[], now, windowMs.getD 60000, maxArchivedBuckets.getD 10, [], 0, 0⟩

/-- `archiveBucket(entries, startTime, endTime)`: append the bucket with
its pre-computed percentiles, then shift old buckets off the front while
the archive exceeds `maxArchivedBuckets`, accumulating their entry counts
into `totalEvicted`. -/
def archiveBucket (st : TumblingWindowStrategy) (entries : List MetricEntry)
    (startTime endTime : Int) : TumblingWindowStrategy :=
  let bucket : MetricBucket := ⟨entries, startTime, endTime,
    computePercentiles entries .latency⟩
  let arch := st.archivedBuckets ++ [bucket]
  let dropCount := arch.length - st.maxArchivedBuckets
  { st with archivedBuckets := arch.drop dropCount,
            totalEvicted := st.totalEvicted
              + ((arch.take dropCount).map (fun b => b.entries.length)).sum }

/-- `closeBucket(endTime)`: archive the active bucket only when it is
non-empty (an empty active bucket is discarded without archiving), then
start a fresh bucket. -/
def closeBucket (st : TumblingWindowStrategy) (endTime : Int) : TumblingWindowStrategy :=
  if 0 < st.currentBucket.length then
    { archiveBucket st st.currentBucket st.bucketStartTime endTime with currentBucket := [] }
  else
    { st with currentBucket := [] }

/-- The `while` loop in `push` that archives an explicitly empty bucket for
each fully skipped window. The JS loop terminates only when `windowMs > 0`
(the documented config invariant, `duration > 0`); the guard makes the
model total. -/
def skipLoop (ts : Int) (st : TumblingWindowStrategy) : TumblingWindowStrategy :=
  if h : 0 < st.windowMs ∧ st.bucketStartTime + st.windowMs ≤ ts then
    skipLoop ts
      { archiveBucket st [] st.bucketStartTime (st.bucketStartTime + st.windowMs) with
          bucketStartTime := st.bucketStartTime + st.windowMs }
  else st
termination_by (ts - st.bucketStartTime).toNat
decreasing_by
  simp_wf
  omega

/-- `push(entry)`: close and advance past the boundary when the entry's
timestamp falls at or beyond it (archiving skipped windows as empty
buckets), then append the entry to the active bucket. (The source bumps
`totalPushed` before branching; here the bump is carried into both
branches, which yields the same state.) -/
def push (st : TumblingWindowStrategy) (entry : MetricEntry) : TumblingWindowStrategy :=
  if st.bucketStartTime + st.windowMs ≤ entry.timestamp then
    let sts := skipLoop entry.timestamp
      { closeBucket { st with totalPushed := st.totalPushed + 1 }
          (st.bucketStartTime + st.windowMs) with
        bucketStartTime := st.bucketStartTime + st.windowMs }
    { sts with currentBucket := sts.currentBucket ++ [entry] }
  else
    { st with totalPushed := st.totalPushed + 1,
              currentBucket := st.currentBucket ++ [entry] }

theorem archiveBucket_no_evict (st : TumblingWindowStrategy) (entries : List MetricEntry)
    (a b : Int) (h : st.archivedBuckets.length + 1 ≤ st.maxArchivedBuckets) :
    archiveBucket st entries a b
      = { st with archivedBuckets := st.archivedBuckets
            ++ [⟨entries, a, b, computePercentiles entries .latency⟩] } := by
  have hdrop : (st.archivedBuckets
      ++ [(⟨entries, a, b, computePercentiles entries .latency⟩ : MetricBucket)]).length
      - st.maxArchivedBuckets = 0 := by
    rw [List.length_append, List.length_singleton]
    omega
  simp only [archiveBucket, hdrop]
  simp

end TumblingWindowStrategy

namespace TumblingWindowStrategy

theorem skipLoop_spec (n : Nat) : ∀ (st : TumblingWindowStrategy) (ts : Int),
    0 < st.windowMs →
    st.bucketStartTime + (n : Int) * st.windowMs ≤ ts →
    ts < st.bucketStartTime + ((n : Int) + 1) * st.windowMs →
    st.archivedBuckets.length + n ≤ st.maxArchivedBuckets →
    skipLoop ts st = { st with
      bucketStartTime := st.bucketStartTime + (n : Int) * st.windowMs,
      archivedBuckets := st.archivedBuckets ++ (List.range n).map (fun (i : Nat) =>
        ⟨[], st.bucketStartTime + (i : Int) * st.windowMs,
          st.bucketStartTime + ((i : Int) + 1) * st.windowMs,
          computePercentiles [] .latency⟩) } := by
  induction n with
  | zero =>
    intro st ts hw h1 h2 hlen
    rw [skipLoop]
    rw [dif_neg]
    · simp
    · intro hcon
      push_cast at h2
      omega
  | succ n ih =>
    intro st ts hw h1 h2 hlen
    have hstep : st.bucketStartTime + st.windowMs ≤ ts := by
      have hmul : st.windowMs ≤ ((n : Int) + 1) * st.windowMs := by
        have h0 : (1 : Int) ≤ (n : Int) + 1 := by omega
        nlinarith
      push_cast at h1
      linarith
    rw [skipLoop, dif_pos ⟨hw, hstep⟩]
    rw [archiveBucket_no_evict st [] st.bucketStartTime (st.bucketStartTime + st.windowMs)
      (by omega)]
    set st' : TumblingWindowStrategy :=
      { st with
        archivedBuckets := st.archivedBuckets
          ++ [⟨[], st.bucketStartTime, st.bucketStartTime + st.windowMs,
                computePercentiles [] .latency⟩],
        bucketStartTime := st.bucketStartTime + st.windowMs } with hst'
    have hmain := ih st' ts (by rw [hst']; exact hw)
      (by
        show st'.bucketStartTime + (n : Int) * st'.windowMs ≤ ts
        rw [hst']
        show st.bucketStartTime + st.windowMs + (n : Int) * st.windowMs ≤ ts
        push_cast at h1
        linarith)
      (by
        show ts < st'.bucketStartTime + ((n : Int) + 1) * st'.windowMs
        rw [hst']
        show ts < st.bucketStartTime + st.windowMs + ((n : Int) + 1) * st.windowMs
        push_cast at h2
        linarith)
      (by
        show st'.archivedBuckets.length + n ≤ st'.maxArchivedBuckets
        rw [hst']
        show (st.archivedBuckets
          ++ [(⟨[], st.bucketStartTime, st.bucketStartTime + st.windowMs,
                computePercentiles [] .latency⟩ : MetricBucket)]).length + n
          ≤ st.maxArchivedBuckets
        rw [List.length_append, List.length_singleton]
        omega)
    rw [hst'] at hmain
    rw [hmain]
    ext1
    · rfl
    · show st.bucketStartTime + st.windowMs + (n : Int) * st.windowMs
        = st.bucketStartTime + ((n : Int) + 1) * st.windowMs
      push_cast
      ring
    · rfl
    · rfl
    · show (st.archivedBuckets
          ++ [(⟨[], st.bucketStartTime, st.bucketStartTime + st.windowMs,
                computePercentiles [] .latency⟩ : MetricBucket)])
          ++ (List.range n).map (fun i =>
            ⟨[], st.bucketStartTime + st.windowMs + (i : Int) * st.windowMs,
              st.bucketStartTime + st.windowMs + ((i : Int) + 1) * st.windowMs,
              computePercentiles [] .latency⟩)
        = st.archivedBuckets ++ (List.range (n + 1)).map (fun i =>
            ⟨[], st.bucketStartTime + (i : Int) * st.windowMs,
              st.bucketStartTime + ((i : Int) + 1) * st.windowMs,
              computePercentiles [] .latency⟩)
      rw [List.range_succ_eq_map, List.map_cons, List.append_assoc, List.singleton_append]
      congr 1
      congr 1
      · ext1
        · rfl
        · push_cast; ring
        · push_cast; ring
        · rfl
      · rw [List.map_map]
        apply List.map_congr_left
        intro i hi
        ext1
        · rfl
        · show st.bucketStartTime + st.windowMs + (i : Int) * st.windowMs
            = st.bucketStartTime + ((Nat.succ i : Nat) : Int) * st.windowMs
          push_cast
          ring
        · show st.bucketStartTime + st.windowMs + ((i : Int) + 1) * st.windowMs
            = st.bucketStartTime + (((Nat.succ i : Nat) : Int) + 1) * st.windowMs
          push_cast
          ring
        · rfl
    · rfl
    · rfl

end TumblingWindowStrategy

namespace TumblingWindowStrategy

theorem closeBucket_empty (st : TumblingWindowStrategy) (endTime : Int)
    (h : st.currentBucket = []) :
    closeBucket st endTime = { st with currentBucket := [] } := by
  unfold closeBucket
  rw [h]
  simp

theorem closeBucket_nonempty (st : TumblingWindowStrategy) (endTime : Int)
    (h : st.currentBucket ≠ []) (hlen : st.archivedBuckets.length + 1 ≤ st.maxArchivedBuckets) :
    closeBucket st endTime = { st with
      currentBucket := [],
      archivedBuckets := st.archivedBuckets
        ++ [⟨st.currentBucket, st.bucketStartTime, endTime,
              computePercentiles st.currentBucket .latency⟩] } := by
  unfold closeBucket
  rw [if_pos (List.length_pos.mpr h), archiveBucket_no_evict st _ _ _ hlen]

theorem push_eq_boundary (st : TumblingWindowStrategy) (e : MetricEntry)
    (hcond : st.bucketStartTime + st.windowMs ≤ e.timestamp) :
    st.push e =
      { skipLoop e.timestamp
          { closeBucket { st with totalPushed := st.totalPushed + 1 }
              (st.bucketStartTime + st.windowMs) with
            bucketStartTime := st.bucketStartTime + st.windowMs } with
        currentBucket :=
          (skipLoop e.timestamp
            { closeBucket { st with totalPushed := st.totalPushed + 1 }
                (st.bucketStartTime + st.windowMs) with
              bucketStartTime := st.bucketStartTime + st.windowMs }).currentBucket ++ [e] } := by
  rw [push, if_pos hcond]

theorem emptyBuckets_shift (b w : Int) (n : Nat) :
    (List.range n).map (fun (i : Nat) =>
        (⟨[], b + w + (i : Int) * w, b + w + ((i : Int) + 1) * w,
          computePercentiles [] .latency⟩ : MetricBucket))
      = (List.range n).map (fun (i : Nat) =>
        (⟨[], b + ((i : Int) + 1) * w, b + ((i : Int) + 2) * w,
          computePercentiles [] .latency⟩ : MetricBucket)) := by
  apply List.map_congr_left
  intro i hi
  ext1
  · rfl
  · push_cast; ring
  · push_cast; ring
  · rfl

end TumblingWindowStrategy

/-- C3 counterexample: with an empty active bucket (fresh strategy,
bucket duration 10 starting at 0), ingesting a sample at t = 10 crosses
the boundary but archives nothing: the empty active bucket is NOT
archived with a zero bundle, contrary to the claim. -/
theorem tumbling_empty_bucket_not_archived :
    ((TumblingWindowStrategy.create (some 10) (some 10) 0).push
        ⟨"s", .latency, 1, 10, none⟩).archivedBuckets = []
    ∧ (TumblingWindowStrategy.create (some 10) (some 10) 0).bucketStartTime + 10
        ≤ (10 : Int) := by
  constructor
  · rw [TumblingWindowStrategy.push_eq_boundary _ _ (by norm_num [TumblingWindowStrategy.create])]
    show (TumblingWindowStrategy.skipLoop 10 _).archivedBuckets = []
    rw [TumblingWindowStrategy.closeBucket_empty _ _ rfl]
    rw [TumblingWindowStrategy.skipLoop]
    rw [dif_neg (by norm_num [TumblingWindowStrategy.create])]
    rfl
  · norm_num [TumblingWindowStrategy.create]

/-- C3 amended: when a pushed sample lands `n+1` bucket durations past the
active boundary (and the archive has room), the active bucket is archived
only if non-empty — an empty active bucket is discarded without archiving —
then each of the `n` fully skipped durations is archived as an explicitly
empty bucket with contiguous, non-jumping boundaries
(`[start+(i+1)·w, start+(i+2)·w)`), the new active bucket opens at
`start+(n+1)·w` (≤ the sample's timestamp < that + w) and holds exactly
the new sample. -/
theorem tumbling_push_boundary (st : TumblingWindowStrategy) (e : MetricEntry) (n : Nat)
    (hw : 0 < st.windowMs)
    (h1 : st.bucketStartTime + ((n : Int) + 1) * st.windowMs ≤ e.timestamp)
    (h2 : e.timestamp < st.bucketStartTime + ((n : Int) + 2) * st.windowMs)
    (harch : st.archivedBuckets.length + n + 1 ≤ st.maxArchivedBuckets) :
    st.push e = { st with
      currentBucket := [e],
      bucketStartTime := st.bucketStartTime + ((n : Int) + 1) * st.windowMs,
      archivedBuckets := st.archivedBuckets
        ++ (if st.currentBucket = [] then []
            else [⟨st.currentBucket, st.bucketStartTime,
              st.bucketStartTime + st.windowMs,
              computePercentiles st.currentBucket .latency⟩])
        ++ (List.range n).map (fun (i : Nat) =>
            ⟨[], st.bucketStartTime + ((i : Int) + 1) * st.windowMs,
              st.bucketStartTime + ((i : Int) + 2) * st.windowMs,
              computePercentiles [] .latency⟩),
      totalPushed := st.totalPushed + 1 } := by
  have hn0 : (0 : Int) ≤ (n : Int) := Int.natCast_nonneg n
  have hexp1 : ((n : Int) + 1) * st.windowMs
      = (n : Int) * st.windowMs + st.windowMs := by ring
  have hexp2 : ((n : Int) + 2) * st.windowMs
      = (n : Int) * st.windowMs + 2 * st.windowMs := by ring
  have hnn : 0 ≤ (n : Int) * st.windowMs := mul_nonneg hn0 hw.le
  have hcond : st.bucketStartTime + st.windowMs ≤ e.timestamp := by
    rw [hexp1] at h1
    linarith
  rw [TumblingWindowStrategy.push_eq_boundary st e hcond]
  by_cases hcur : st.currentBucket = []
  · rw [TumblingWindowStrategy.closeBucket_empty
      { st with totalPushed := st.totalPushed + 1 } (st.bucketStartTime + st.windowMs)
      (show ({ st with totalPushed := st.totalPushed + 1 } :
        TumblingWindowStrategy).currentBucket = [] from hcur)]
    dsimp only
    rw [TumblingWindowStrategy.skipLoop_spec n
      (⟨[], st.bucketStartTime + st.windowMs, st.windowMs, st.maxArchivedBuckets,
        st.archivedBuckets, st.totalPushed + 1, st.totalEvicted⟩ : TumblingWindowStrategy)
      e.timestamp hw
      (by
        show st.bucketStartTime + st.windowMs + (n : Int) * st.windowMs ≤ e.timestamp
        rw [hexp1] at h1
        linarith)
      (by
        show e.timestamp < st.bucketStartTime + st.windowMs + ((n : Int) + 1) * st.windowMs
        rw [hexp1]
        rw [hexp2] at h2
        linarith)
      (by
        show st.archivedBuckets.length + n ≤ st.maxArchivedBuckets
        omega)]
    ext1
    · show ([] : List MetricEntry) ++ [e] = [e]
      simp
    · show st.bucketStartTime + st.windowMs + (n : Int) * st.windowMs
        = st.bucketStartTime + ((n : Int) + 1) * st.windowMs
      ring
    · rfl
    · rfl
    · show st.archivedBuckets ++ (List.range n).map (fun (i : Nat) =>
          (⟨[], st.bucketStartTime + st.windowMs + (i : Int) * st.windowMs,
            st.bucketStartTime + st.windowMs + ((i : Int) + 1) * st.windowMs,
            computePercentiles [] .latency⟩ : MetricBucket))
        = st.archivedBuckets
          ++ (if st.currentBucket = [] then []
              else [⟨st.currentBucket, st.bucketStartTime,
                st.bucketStartTime + st.windowMs,
                computePercentiles st.currentBucket .latency⟩])
          ++ (List.range n).map (fun (i : Nat) =>
              (⟨[], st.bucketStartTime + ((i : Int) + 1) * st.windowMs,
                st.bucketStartTime + ((i : Int) + 2) * st.windowMs,
                computePercentiles [] .latency⟩ : MetricBucket))
      rw [if_pos hcur, List.append_nil]
      congr 1
      exact TumblingWindowStrategy.emptyBuckets_shift st.bucketStartTime st.windowMs n
    · rfl
    · rfl
  · rw [TumblingWindowStrategy.closeBucket_nonempty
      { st with totalPushed := st.totalPushed + 1 } (st.bucketStartTime + st.windowMs)
      (show ({ st with totalPushed := st.totalPushed + 1 } :
        TumblingWindowStrategy).currentBucket ≠ [] from hcur)
      (by
        show st.archivedBuckets.length + 1 ≤ st.maxArchivedBuckets
        omega)]
    dsimp only
    rw [TumblingWindowStrategy.skipLoop_spec n
      (⟨[], st.bucketStartTime + st.windowMs, st.windowMs, st.maxArchivedBuckets,
        st.archivedBuckets
          ++ [(⟨st.currentBucket, st.bucketStartTime, st.bucketStartTime + st.windowMs,
                computePercentiles st.currentBucket .latency⟩ : MetricBucket)],
        st.totalPushed + 1, st.totalEvicted⟩ : TumblingWindowStrategy)
      e.timestamp hw
      (by
        show st.bucketStartTime + st.windowMs + (n : Int) * st.windowMs ≤ e.timestamp
        rw [hexp1] at h1
        linarith)
      (by
        show e.timestamp < st.bucketStartTime + st.windowMs + ((n : Int) + 1) * st.windowMs
        rw [hexp1]
        rw [hexp2] at h2
        linarith)
      (by
        show (st.archivedBuckets
            ++ [(⟨st.currentBucket, st.bucketStartTime, st.bucketStartTime + st.windowMs,
              computePercentiles st.currentBucket .latency⟩ : MetricBucket)]).length + n
          ≤ st.maxArchivedBuckets
        rw [List.length_append, List.length_singleton]
        omega)]
    ext1
    · show ([] : List MetricEntry) ++ [e] = [e]
      simp
    · show st.bucketStartTime + st.windowMs + (n : Int) * st.windowMs
        = st.bucketStartTime + ((n : Int) + 1) * st.windowMs
      ring
    · rfl
    · rfl
    · show (st.archivedBuckets
            ++ [(⟨st.currentBucket, st.bucketStartTime, st.bucketStartTime + st.windowMs,
              computePercentiles st.currentBucket .latency⟩ : MetricBucket)])
          ++ (List.range n).map (fun (i : Nat) =>
            (⟨[], st.bucketStartTime + st.windowMs + (i : Int) * st.windowMs,
              st.bucketStartTime + st.windowMs + ((i : Int) + 1) * st.windowMs,
              computePercentiles [] .latency⟩ : MetricBucket))
        = st.archivedBuckets
          ++ (if st.currentBucket = [] then []
              else [⟨st.currentBucket, st.bucketStartTime,
                st.bucketStartTime + st.windowMs,
                computePercentiles st.currentBucket .latency⟩])
          ++ (List.range n).map (fun (i : Nat) =>
              (⟨[], st.bucketStartTime + ((i : Int) + 1) * st.windowMs,
                st.bucketStartTime + ((i : Int) + 2) * st.windowMs,
                computePercentiles [] .latency⟩ : MetricBucket))
      rw [if_neg hcur]
      congr 1
      exact TumblingWindowStrategy.emptyBuckets_shift st.bucketStartTime st.windowMs n
    · rfl
    · rfl

/-- Witness for the amended C3: active bucket `[start 0, 10)` holding one
sample, next sample at t = 25 (one full skipped duration): the closed
bucket and one explicitly empty bucket `[10, 20)` are archived, and the
new active bucket `[20, 30)` holds only the new sample. -/
theorem tumbling_push_boundary_witness :
    ((⟨[⟨"s", .latency, 5, 0, none⟩], 0, 10, 3, [], 1, 0⟩ :
        TumblingWindowStrategy).push ⟨"s", .latency, 7, 25, none⟩).archivedBuckets
      = [⟨[⟨"s", .latency, 5, 0, none⟩], 0, 10,
          computePercentiles [⟨"s", .latency, 5, 0, none⟩] .latency⟩,
         ⟨[], 10, 20, computePercentiles [] .latency⟩]
    ∧ ((⟨[⟨"s", .latency, 5, 0, none⟩], 0, 10, 3, [], 1, 0⟩ :
        TumblingWindowStrategy).push ⟨"s", .latency, 7, 25, none⟩).currentBucket
      = [⟨"s", .latency, 7, 25, none⟩]
    ∧ ((⟨[⟨"s", .latency, 5, 0, none⟩], 0, 10, 3, [], 1, 0⟩ :
        TumblingWindowStrategy).push ⟨"s", .latency, 7, 25, none⟩).bucketStartTime = 20 := by
  have h := tumbling_push_boundary
    (⟨[⟨"s", .latency, 5, 0, none⟩], 0, 10, 3, [], 1, 0⟩ : TumblingWindowStrategy)
    ⟨"s", .latency, 7, 25, none⟩ 1 (by norm_num) (by norm_num) (by norm_num) (by norm_num)
  rw [h]
  refine ⟨?_, by decide, by norm_num⟩
  show ([] : List MetricBucket)
      ++ (if ([⟨"s", .latency, 5, 0, none⟩] : List MetricEntry) = [] then []
          else [⟨[⟨"s", .latency, 5, 0, none⟩], 0, 0 + 10,
            computePercentiles [⟨"s", .latency, 5, 0, none⟩] .latency⟩])
      ++ (List.range 1).map (fun (i : Nat) =>
          (⟨[], 0 + ((i : Int) + 1) * 10, 0 + ((i : Int) + 2) * 10,
            computePercentiles [] .latency⟩ : MetricBucket))
      = [⟨[⟨"s", .latency, 5, 0, none⟩], 0, 10,
          computePercentiles [⟨"s", .latency, 5, 0, none⟩] .latency⟩,
         ⟨[], 10, 20, computePercentiles [] .latency⟩]
  rw [if_neg (by decide : ¬ ([⟨"s", .latency, 5, 0, none⟩] : List MetricEntry) = [])]
  have hmap : (List.range 1).map (fun (i : Nat) =>
      (⟨[], 0 + ((i : Int) + 1) * 10, 0 + ((i : Int) + 2) * 10,
        computePercentiles [] .latency⟩ : MetricBucket))
      = [⟨[], 0 + (((0 : Nat) : Int) + 1) * 10, 0 + (((0 : Nat) : Int) + 2) * 10,
          computePercentiles [] .latency⟩] := rfl
  rw [hmap]
  simp only [List.nil_append, List.cons_append, List.singleton_append]
  have e1 : (⟨[⟨"s", .latency, 5, 0, none⟩], 0, 0 + 10,
      computePercentiles [⟨"s", .latency, 5, 0, none⟩] .latency⟩ : MetricBucket)
      = ⟨[⟨"s", .latency, 5, 0, none⟩], 0, 10,
          computePercentiles [⟨"s", .latency, 5, 0, none⟩] .latency⟩ := by
    ext1 <;> norm_num
  have e2 : (⟨[], 0 + (((0 : Nat) : Int) + 1) * 10, 0 + (((0 : Nat) : Int) + 2) * 10,
      computePercentiles [] .latency⟩ : MetricBucket)
      = ⟨[], 10, 20, computePercentiles [] .latency⟩ := by
    ext1 <;> norm_num
  rw [e1, e2]

/-! ## MetricCollector (`collector/MetricCollector.js`), generic over the
injected window strategy -/

/-- JS `Map.set` (only lookup semantics are relevant to the model). -/
def mapSet (m : String → Option Int) (k : String) (v : Int) : String → Option Int :=
  fun q => if q = k then some v else m q

/-- JS `Map.delete`. -/
def mapDelete (m : String → Option Int) (k : String) : String → Option Int :=
  fun q => if q = k then none else m q

/-- JS `Set.add` on an insertion-ordered set. -/
def setAdd (l : List String) (s : String) : List String :=
  if s ∈ l then l else l ++ [s]

/-- The state of a `MetricCollector`, generic over the injected strategy
state `σ` with its `push` function. The optional per-entry callback may
fail (`Except`), modelling a user callback that throws. -/
structure MetricCollector (σ : Type) where
  pushFn : σ → MetricEntry → σ
  strategy : σ
  trackReads : Bool
  trackWrites : Bool
  trackCommits : Bool
  onMetricEntry : Option (MetricEntry → Except String Unit)
  stageStartTimes : String → Option Int
  observedStages : List String
  totalErrors : Nat
  totalInvocations : Nat
  totalEntries : Nat

/-- A stage-start event record. -/
structure StageStartEvent where
  stageName : String
  timestamp : Int

/-- A stage-end event record (optionally carrying a precomputed duration). -/
structure StageEndEvent where
  stageName : String
  timestamp : Int
  duration : Option ℚ

namespace MetricCollector

/-- `emit(entry)`: push to the strategy, then invoke the optional callback,
swallowing any error it raises (the `try`/`catch` in the source). -/
def emit {σ : Type} (c : MetricCollector σ) (entry : MetricEntry) : MetricCollector σ :=
  let c' : MetricCollector σ := { c with
    totalEntries := c.totalEntries + 1,
    strategy := c.pushFn c.strategy entry }
  match c'.onMetricEntry with
  | none => c'
  | some f =>
    match f entry with
    | Except.ok _ => c'
    | Except.error _ => c'

/-- `onStageStart(event)`. -/
def onStageStart {σ : Type} (c : MetricCollector σ) (event : StageStartEvent) :
    MetricCollector σ :=
  emit { c with
      stageStartTimes := mapSet c.stageStartTimes event.stageName event.timestamp,
      observedStages := setAdd c.observedStages event.stageName,
      totalInvocations := c.totalInvocations + 1 }
    ⟨event.stageName, .stageInvocation, 1, event.timestamp, none⟩

/-- `onStageEnd(event)`: emit a latency sample from the explicit duration,
or derive it from the pending start timestamp; then remove the pending
entry. -/
def onStageEnd {σ : Type} (c : MetricCollector σ) (event : StageEndEvent) :
    MetricCollector σ :=
  match event.duration with
  | some d =>
    let c' := emit c ⟨event.stageName, .latency, d, event.timestamp, none⟩
    { c' with stageStartTimes := mapDelete c'.stageStartTimes event.stageName }
  | none =>
    match c.stageStartTimes event.stageName with
    | some startTime =>
      let c' := emit c ⟨event.stageName, .latency,
        ((event.timestamp - startTime : Int) : ℚ), event.timestamp, none⟩
      { c' with stageStartTimes := mapDelete c'.stageStartTimes event.stageName }
    | none => { c with stageStartTimes := mapDelete c.stageStartTimes event.stageName }

/-- `onRead(event)`: gated by `trackReads`. -/
def onRead {σ : Type} (c : MetricCollector σ) (event : StageStartEvent) :
    MetricCollector σ :=
  if c.trackReads then emit c ⟨event.stageName, .readCount, 1, event.timestamp, none⟩ else c

/-- `onWrite(event)`: gated by `trackWrites`. -/
def onWrite {σ : Type} (c : MetricCollector σ) (event : StageStartEvent) :
    MetricCollector σ :=
  if c.trackWrites then emit c ⟨event.stageName, .writeCount, 1, event.timestamp, none⟩ else c

/-- `onCommit(event)`: gated by `trackCommits`. -/
def onCommit {σ : Type} (c : MetricCollector σ) (event : StageStartEvent) :
    MetricCollector σ :=
  if c.trackCommits then emit c ⟨event.stageName, .commitCount, 1, event.timestamp, none⟩ else c

theorem emit_fields {σ : Type} (c : MetricCollector σ) (e : MetricEntry) :
    emit c e = { c with
      totalEntries := c.totalEntries + 1,
      strategy := c.pushFn c.strategy e } := by
  unfold emit
  cases hf : c.onMetricEntry with
  | none => simp [hf]
  | some f =>
    cases hres : f e with
    | ok r => simp [hf, hres]
    | error err => simp [hf, hres]

end MetricCollector

/-- C6: for any injected strategy, an origin-start at t = 100 followed by
an origin-end at t = 150 with no explicit duration pushes exactly two
samples to the strategy — the invocation sample and a single latency-kind
sample of value 50 for that origin — and the pending-start map no longer
contains the origin afterwards. -/
theorem bridge_latency_sample (σ : Type) (c : MetricCollector σ) (o : String) :
    ((c.onStageStart ⟨o, 100⟩).onStageEnd ⟨o, 150, none⟩).strategy
        = c.pushFn (c.pushFn c.strategy ⟨o, .stageInvocation, 1, 100, none⟩)
            ⟨o, .latency, 50, 150, none⟩
    ∧ ((c.onStageStart ⟨o, 100⟩).onStageEnd ⟨o, 150, none⟩).stageStartTimes o = none := by
  have h1 : c.onStageStart ⟨o, 100⟩ = { c with
      stageStartTimes := mapSet c.stageStartTimes o 100,
      observedStages := setAdd c.observedStages o,
      totalInvocations := c.totalInvocations + 1,
      totalEntries := c.totalEntries + 1,
      strategy := c.pushFn c.strategy ⟨o, .stageInvocation, 1, 100, none⟩ } := by
    unfold MetricCollector.onStageStart
    rw [MetricCollector.emit_fields]
  rw [h1]
  unfold MetricCollector.onStageEnd
  have hlook : mapSet c.stageStartTimes o 100 o = some 100 := by
    unfold mapSet
    simp
  simp only [hlook]
  rw [MetricCollector.emit_fields]
  have hent : (⟨o, .latency, (((150 : Int) - 100 : Int) : ℚ), 150, none⟩ : MetricEntry)
      = ⟨o, .latency, 50, 150, none⟩ := by
    norm_num
  constructor
  · show c.pushFn (c.pushFn c.strategy ⟨o, .stageInvocation, 1, 100, none⟩)
        ⟨o, .latency, (((150 : Int) - 100 : Int) : ℚ), 150, none⟩
      = c.pushFn (c.pushFn c.strategy ⟨o, .stageInvocation, 1, 100, none⟩)
        ⟨o, .latency, 50, 150, none⟩
    rw [hent]
  · show mapDelete (mapSet c.stageStartTimes o 100) o o = none
    unfold mapDelete
    simp

/-- C9: when the user-supplied per-sample callback raises an error, `emit`
catches it — the result is the ordinary updated collector state (no error
propagates) and the sample has been pushed to the strategy regardless. -/
theorem emit_callback_error_swallowed (σ : Type) (c : MetricCollector σ)
    (f : MetricEntry → Except String Unit) (e : MetricEntry) (msg : String)
    (hf : c.onMetricEntry = some f) (herr : f e = Except.error msg) :
    c.emit e = { c with
      totalEntries := c.totalEntries + 1,
      strategy := c.pushFn c.strategy e } := by
  unfold MetricCollector.emit
  simp [hf, herr]

/-- Witness for C9: a callback that always throws; the sample is still
pushed (strategy list gains the entry) and the state is returned normally. -/
theorem emit_callback_error_swallowed_witness :
    MetricCollector.emit
      (⟨fun l e => l ++ [e], [], true, true, true,
        some (fun _ => Except.error "boom"), fun _ => none, [], 0, 0, 0⟩ :
        MetricCollector (List MetricEntry))
      ⟨"s", .latency, 1, 0, none⟩
    = ⟨fun l e => l ++ [e], [⟨"s", .latency, 1, 0, none⟩], true, true, true,
        some (fun _ => Except.error "boom"), fun _ => none, [], 0, 0, 1⟩ := by
  rw [emit_callback_error_swallowed (List MetricEntry) _ (fun _ => Except.error "boom")
    ⟨"s", .latency, 1, 0, none⟩ "boom" rfl rfl]
  rfl

/-- C7 counterexample: on the sliding window, two aggregate calls with no
intervening ingest but at different instants (0 then 1) return results
whose `windowInfo` differs — not only `computedAt` — because the reported
window span is `[now − windowMs, now]`. -/
theorem aggregate_idempotence_counterexample :
    ((SlidingWindowStrategy.getMetricResult
        ((SlidingWindowStrategy.getMetricResult (SlidingWindowStrategy.create (some 5)) 0).2)
        1).1).windowInfo
      ≠ ((SlidingWindowStrategy.getMetricResult
        (SlidingWindowStrategy.create (some 5)) 0).1).windowInfo := by
  decide

/-- C7 amended: the aggregate is recomputed fresh from the retained
samples. For the ring buffer with at least one retained entry, two
aggregate calls with no intervening ingest agree on every field except
`computedAt` (when empty, `windowInfo` falls back to the call instant).
For the sliding window, each call first re-evicts at its own instant and
reports the span `[now − windowMs, now]`; provided the second call's
instant evicts nothing further, the two results agree on every field
except `computedAt` and the `windowInfo` time span. -/
theorem aggregate_idempotence (s : RingBufferStrategy) (t : SlidingWindowStrategy)
    (n1 n2 m1 m2 : Int) (hne : s.entriesList ≠ [])
    (hkeep : ∀ e ∈ ((t.getMetricResult m1).2).entries, m2 - t.windowMs ≤ e.timestamp) :
    ((s.getMetricResult n1).latencyPercentiles = (s.getMetricResult n2).latencyPercentiles
      ∧ (s.getMetricResult n1).stagePercentiles = (s.getMetricResult n2).stagePercentiles
      ∧ (s.getMetricResult n1).totalErrors = (s.getMetricResult n2).totalErrors
      ∧ (s.getMetricResult n1).stageErrors = (s.getMetricResult n2).stageErrors
      ∧ (s.getMetricResult n1).totalInvocations = (s.getMetricResult n2).totalInvocations
      ∧ (s.getMetricResult n1).windowInfo = (s.getMetricResult n2).windowInfo)
    ∧ ((((t.getMetricResult m1).2).getMetricResult m2).1.latencyPercentiles
          = (t.getMetricResult m1).1.latencyPercentiles
      ∧ (((t.getMetricResult m1).2).getMetricResult m2).1.stagePercentiles
          = (t.getMetricResult m1).1.stagePercentiles
      ∧ (((t.getMetricResult m1).2).getMetricResult m2).1.totalErrors
          = (t.getMetricResult m1).1.totalErrors
      ∧ (((t.getMetricResult m1).2).getMetricResult m2).1.stageErrors
          = (t.getMetricResult m1).1.stageErrors
      ∧ (((t.getMetricResult m1).2).getMetricResult m2).1.totalInvocations
          = (t.getMetricResult m1).1.totalInvocations
      ∧ (((t.getMetricResult m1).2).getMetricResult m2).1.windowInfo.entryCount
          = (t.getMetricResult m1).1.windowInfo.entryCount
      ∧ (((t.getMetricResult m1).2).getMetricResult m2).1.windowInfo.startTime
          = m2 - t.windowMs
      ∧ (((t.getMetricResult m1).2).getMetricResult m2).1.windowInfo.endTime = m2) := by
  obtain ⟨e, l, hel⟩ : ∃ e l, s.entriesList = e :: l := by
    cases hcase : s.entriesList with
    | nil => exact absurd hcase hne
    | cons e l => exact ⟨e, l, rfl⟩
  obtain ⟨x, hx⟩ : ∃ x, s.entriesList.getLast? = some x := by
    rw [hel]
    exact ⟨(e :: l).getLast (by simp), List.getLast?_eq_getLast (e :: l) (by simp)⟩
  have hwi : ∀ n : Int, (s.getMetricResult n).windowInfo
      = ⟨"ringBuffer", e.timestamp, x.timestamp, s.entriesList.length⟩ := by
    intro n
    ext1
    · rfl
    · show (match s.entriesList with | [] => n | e :: _ => e.timestamp) = e.timestamp
      rw [hel]
    · show (match s.entriesList.getLast? with | none => n | some y => y.timestamp) = x.timestamp
      rw [hx]
    · rfl
  have hfe : (SlidingWindowStrategy.evictStale ((t.getMetricResult m1).2) m2).entries
      = ((t.getMetricResult m1).2).entries := by
    show (((t.getMetricResult m1).2).entries).filter
        (fun e => m2 - ((t.getMetricResult m1).2).windowMs ≤ e.timestamp)
      = ((t.getMetricResult m1).2).entries
    rw [List.filter_eq_self]
    intro a ha
    exact decide_eq_true (hkeep a ha)
  refine ⟨⟨rfl, rfl, rfl, rfl, rfl, by rw [hwi n1, hwi n2]⟩, ?_, ?_, ?_, ?_, ?_, ?_, rfl, rfl⟩
  · show computePercentiles
        (SlidingWindowStrategy.evictStale ((t.getMetricResult m1).2) m2).entries .latency
      = (t.getMetricResult m1).1.latencyPercentiles
    rw [hfe]
    rfl
  · show computeStagePercentiles
        (SlidingWindowStrategy.evictStale ((t.getMetricResult m1).2) m2).entries .latency
      = (t.getMetricResult m1).1.stagePercentiles
    rw [hfe]
    rfl
  · show (((SlidingWindowStrategy.evictStale ((t.getMetricResult m1).2) m2).entries.filter
        (fun e => e.metric = .errorCount)).map (fun e => e.value)).sum
      = (t.getMetricResult m1).1.totalErrors
    rw [hfe]
    rfl
  · show computeStageErrors
        (SlidingWindowStrategy.evictStale ((t.getMetricResult m1).2) m2).entries
      = (t.getMetricResult m1).1.stageErrors
    rw [hfe]
    rfl
  · show ((SlidingWindowStrategy.evictStale ((t.getMetricResult m1).2) m2).entries.filter
        (fun e => e.metric = .stageInvocation)).length
      = (t.getMetricResult m1).1.totalInvocations
    rw [hfe]
    rfl
  · show (SlidingWindowStrategy.evictStale ((t.getMetricResult m1).2) m2).entries.length
      = (t.getMetricResult m1).1.windowInfo.entryCount
    rw [hfe]
    rfl

/-- Witness for the amended C7: one-entry ring buffer queried at instants
3 and 7 agrees on `windowInfo`; the sliding window queried at instants 0
and 50 (no further eviction) agrees on the latency bundle. -/
theorem aggregate_idempotence_witness :
    (((RingBufferStrategy.init 2).push ⟨"a", .latency, 1, 5, none⟩).getMetricResult
        3).windowInfo
      = (((RingBufferStrategy.init 2).push ⟨"a", .latency, 1, 5, none⟩).getMetricResult
        7).windowInfo
    ∧ (((((SlidingWindowStrategy.create (some 100)).push
          ⟨"a", .latency, 1, 0, none⟩).getMetricResult 0).2).getMetricResult
            50).1.latencyPercentiles
      = ((((SlidingWindowStrategy.create (some 100)).push
          ⟨"a", .latency, 1, 0, none⟩).getMetricResult 0).1).latencyPercentiles := by
  have h := aggregate_idempotence
    ((RingBufferStrategy.init 2).push ⟨"a", .latency, 1, 5, none⟩)
    ((SlidingWindowStrategy.create (some 100)).push ⟨"a", .latency, 1, 0, none⟩)
    3 7 0 50 (by decide) (by decide)
  exact ⟨h.1.2.2.2.2.2, h.2.1⟩
